import Mathlib

/-!
# Firewall rule lifecycle (`network/firewall/dll/firewall.c`)

A shallow embedding of the three exported entry points `CreateRule`,
`DeleteRule`, `RuleExists` and of their helpers.  The native policy store
(COM: `IIDFromString`, `CoInitializeEx`, `CoCreateInstance`, `INetFwPolicy2`,
`INetFwRules`, `INetFwRule`) is external to the repository; it is a parameter
of the embedding: a deterministic machine over an arbitrary state type that
answers every call with an `HRESULT`.  Every call issued by the code is
appended to a log together with the answer it got, so that statements such as
"no Remove is issued" are statements about that log.

Conventions of the embedding:

* `HRESULT` and `LONG` are integers, `DWORD` is a natural number; the only
  conversion the code performs, `-1` to `DWORD`, is reduction modulo `2^32`.
* A pointer is `none` (`NULL`) or `some`; an out-parameter is written on
  success only (COM leaves it `NULL` on failure, and the slots start `NULL`).
  For `Item` a failed call leaves `*ppRule` as it was.
* The `put_` calls on the new rule object are recorded in the fields of
  `INetFwRule`; their results are not read by the code.
* `SysAllocString`, `SysFreeString` and `wprintf` are not calls on the store
  and are not logged.
* The `while` loop of `DeleteRule` has no bound in the source; the embedding
  gives it fuel, one unit per evaluation of the loop condition, and returns
  `none` together with the world reached when the fuel runs out.
-/

namespace Firewall

/-! ## Machine integers and Windows SDK constants -/

/-- Signed 32-bit result code of the Windows SDK, carried as an integer. -/
abbrev HRESULT := Int

/-- Signed 32-bit integer of the Windows SDK. -/
abbrev LONG := Int

/-- Unsigned 32-bit integer of the Windows SDK, carried as a natural number. -/
abbrev DWORD := Nat

/-- Nullable wide string (`WCHAR*` and `BSTR` arguments); `none` is `NULL`.
`SysAllocString` maps `NULL` to `NULL` and a string to a copy of it, so it is
the identity on this type. -/
abbrev BSTR := Option String

/-- The SDK constant `S_OK`. -/
def S_OK : HRESULT := 0

/-- The SDK test `FAILED(hr)`: the code, read as a signed integer, is negative. -/
def FAILED (hr : HRESULT) : Bool := decide (hr < 0)

/-- An `int` (or `HRESULT`) value converted to `DWORD`: reduction modulo `2^32`. -/
def toDWORD (i : Int) : DWORD := (i % 4294967296).toNat

/-- A 32-bit pattern read as a signed integer. -/
def toHRESULT (x : Nat) : HRESULT :=
  if x % 4294967296 < 2147483648 then ((x % 4294967296 : Nat) : Int)
  else ((x % 4294967296 : Nat) : Int) - 4294967296

/-- The SDK constant `ERROR_FILE_NOT_FOUND`. -/
def ERROR_FILE_NOT_FOUND : Nat := 2

/-- The SDK constant `FACILITY_WIN32`. -/
def FACILITY_WIN32 : Nat := 7

/-- The SDK conversion `HRESULT_FROM_WIN32(x)`: `x` itself when it is not
positive as an `HRESULT`, otherwise
`(x & 0xFFFF) | (FACILITY_WIN32 << 16) | 0x80000000`. -/
def HRESULT_FROM_WIN32 (x : Nat) : HRESULT :=
  if toHRESULT x ≤ 0 then toHRESULT x
  else toHRESULT ((x &&& 65535) ||| (FACILITY_WIN32 <<< 16) ||| 2147483648)

/-- The SDK constant `NET_FW_IP_PROTOCOL_TCP`. -/
def NET_FW_IP_PROTOCOL_TCP : LONG := 6

/-- The SDK constant `NET_FW_IP_PROTOCOL_UDP`. -/
def NET_FW_IP_PROTOCOL_UDP : LONG := 17

/-- The SDK enumeration `NET_FW_ACTION`. -/
inductive NET_FW_ACTION where
  | NET_FW_ACTION_BLOCK
  | NET_FW_ACTION_ALLOW
  deriving DecidableEq

/-- The SDK enumeration `NET_FW_RULE_DIRECTION`. -/
inductive NET_FW_RULE_DIRECTION where
  | NET_FW_RULE_DIR_IN
  | NET_FW_RULE_DIR_OUT
  deriving DecidableEq

/-! ## The rule object and the calls on the platform -/

/-- State of an `INetFwRule` object as far as `CreateRule` writes it: a field
is `none` until the matching `put_` call is made on the object. -/
structure INetFwRule where
  Name : BSTR := none
  Direction : Option NET_FW_RULE_DIRECTION := none
  Action : Option NET_FW_ACTION := none
  Enabled : Option Bool := none
  Protocol : Option LONG := none
  LocalAddresses : BSTR := none
  LocalPorts : BSTR := none
  RemoteAddresses : BSTR := none
  RemotePorts : BSTR := none
  deriving DecidableEq

/-- Interface pointers the code holds.  A rule pointer carries the position in
the log of the call that handed it out. -/
inductive Obj where
  | policy
  | rules
  | rule (id : Nat)
  deriving DecidableEq

/-- The calls the code makes on the platform. -/
inductive Call where
  | IIDFromString (lpsz : String)
  | CoInitializeEx
  | CoCreateInstance (rclsid : String)
  | get_Rules
  | Item (n : BSTR)
  | Add (r : INetFwRule)
  | Remove (n : BSTR)
  | Release (o : Obj)
  | CoUninitialize
  deriving DecidableEq

/-- Calls that open the session or acquire an interface. -/
def Call.isAcquire : Call → Bool
  | Call.IIDFromString _ => true
  | Call.CoInitializeEx => true
  | Call.CoCreateInstance _ => true
  | Call.get_Rules => true
  | _ => false

/-- Lookups by name. -/
def Call.isItem : Call → Bool
  | Call.Item _ => true
  | _ => false

/-- Insertions. -/
def Call.isAdd : Call → Bool
  | Call.Add _ => true
  | _ => false

/-- Removals by name. -/
def Call.isRemove : Call → Bool
  | Call.Remove _ => true
  | _ => false

/-- Calls made by `cleanup`. -/
def Call.isTeardown : Call → Bool
  | Call.Release _ => true
  | Call.CoUninitialize => true
  | _ => false

/-- Releases of a rule pointer. -/
def Call.isRuleRelease : Call → Bool
  | Call.Release (Obj.rule _) => true
  | _ => false

/-- The platform: a deterministic machine answering each call with a result
code and a new state.  (The answer to `Release` and `CoUninitialize` is not
read by the code.) -/
structure Platform (σ : Type) where
  respond : Call → σ → HRESULT × σ

/-- Platform state together with the log of the calls made so far, oldest
first, each with the answer it got. -/
structure World (σ : Type) where
  st : σ
  log : List (Call × HRESULT)

variable {σ : Type}

/-- Issue one call: ask the platform, record call and answer. -/
def invoke (P : Platform σ) (c : Call) (w : World σ) : HRESULT × World σ :=
  ((P.respond c w.st).1, { st := (P.respond c w.st).2, log := w.log ++ [(c, (P.respond c w.st).1)] })

/-! ## The helpers of `firewall.c` -/

/-- Function `portAllowed` (firewall.c:94-96). -/
def portAllowed (p : LONG) : Bool :=
  (p == NET_FW_IP_PROTOCOL_TCP) || (p == NET_FW_IP_PROTOCOL_UDP)

/-- The string converted into `CLSID_NetFwPolicy2` (firewall.c:205). -/
def CLSID_NetFwPolicy2 : String := "\x7bE2B3C97F-6AE1-41AC-817A-F6F92166D7DD\x7d"

/-- The string converted into `IID_INetFwPolicy2` (firewall.c:212). -/
def IID_INetFwPolicy2 : String := "\x7b98325047-C671-4174-8D81-DEFCD3F03186\x7d"

/-- The string converted into `CLSID_NetFwRule` (firewall.c:247). -/
def CLSID_NetFwRule : String := "\x7b2C5BC43E-3369-4C33-AB0C-BE9469677AF4\x7d"

/-- The string converted into `IID_INetFwRule` (firewall.c:254). -/
def IID_INetFwRule : String := "\x7bAF230D27-BABA-4E42-ACED-F524F22CFCE2\x7d"

/-- Function `initializeFirewallPolicy` (firewall.c:200-240): result code, the pointer
stored through `ppNetFwPolicy2` (written by `CoCreateInstance` only, which
leaves it `NULL` when it fails), and the world. -/
def initializeFirewallPolicy (P : Platform σ) (w : World σ) : HRESULT × Option Obj × World σ :=
  let r1 := invoke P (Call.IIDFromString CLSID_NetFwPolicy2) w
  if FAILED r1.1 then (r1.1, none, r1.2) else
  let r2 := invoke P (Call.IIDFromString IID_INetFwPolicy2) r1.2
  if FAILED r2.1 then (r2.1, none, r2.2) else
  let r3 := invoke P Call.CoInitializeEx r2.2
  if FAILED r3.1 then (r3.1, none, r3.2) else
  let r4 := invoke P (Call.CoCreateInstance CLSID_NetFwPolicy2) r3.2
  if FAILED r4.1 then (r4.1, none, r4.2) else
  (S_OK, some Obj.policy, r4.2)

/-- The four calls of `initializeFirewallPolicy`. -/
def sessionCalls : List Call :=
  [Call.IIDFromString CLSID_NetFwPolicy2, Call.IIDFromString IID_INetFwPolicy2,
    Call.CoInitializeEx, Call.CoCreateInstance CLSID_NetFwPolicy2]

/-- Function `initializeFirewallRule` (firewall.c:242-275). -/
def initializeFirewallRule (P : Platform σ) (w : World σ) : HRESULT × Option Obj × World σ :=
  let r1 := invoke P (Call.IIDFromString CLSID_NetFwRule) w
  if FAILED r1.1 then (r1.1, none, r1.2) else
  let r2 := invoke P (Call.IIDFromString IID_INetFwRule) r1.2
  if FAILED r2.1 then (r2.1, none, r2.2) else
  let r3 := invoke P (Call.CoCreateInstance CLSID_NetFwRule) r2.2
  if FAILED r3.1 then (r3.1, none, r3.2) else
  (S_OK, some (Obj.rule r2.2.log.length), r3.2)

/-- Release of one pointer when it is not `NULL` (the three tests of `cleanup`). -/
def releaseIf (P : Platform σ) (p : Option Obj) (w : World σ) : World σ :=
  match p with
  | some o => (invoke P (Call.Release o) w).2
  | none => w

/-- Function `cleanup` (firewall.c:277-288). -/
def cleanup (P : Platform σ) (pNetFwPolicy2 pNetFwRules pNetFwRule : Option Obj) (w : World σ) : World σ :=
  (invoke P Call.CoUninitialize
    (releaseIf P pNetFwRule (releaseIf P pNetFwRules (releaseIf P pNetFwPolicy2 w)))).2

/-- The call `pPolicy2->get_Rules(pPolicy2, &pRules)`: result code, the
pointer left in `pRules` (`NULL` when the call fails), and the world. -/
def get_Rules (P : Platform σ) (w : World σ) : HRESULT × Option Obj × World σ :=
  let r := invoke P Call.get_Rules w
  (r.1, if FAILED r.1 then none else some Obj.rules, r.2)

/-- Function `checkRule` (firewall.c:182-197): the `DWORD` result, the pointer left in
`*ppRule` (a successful `Item` stores the rule it found, a failed one leaves
the slot as it was), and the world. -/
def checkRule (P : Platform σ) (ppRule : Option Obj) (n : BSTR) (w : World σ) :
    DWORD × Option Obj × World σ :=
  let r := invoke P (Call.Item n) w
  if FAILED r.1 then
    if r.1 = HRESULT_FROM_WIN32 ERROR_FILE_NOT_FOUND then (0, ppRule, r.2)
    else (toDWORD (-1), ppRule, r.2)
  else (1, some (Obj.rule w.log.length), r.2)

/-- The value `checkRule` computes from the answer of `Item`. -/
def lookupResult (hr : HRESULT) : DWORD :=
  if FAILED hr then
    if hr = HRESULT_FROM_WIN32 ERROR_FILE_NOT_FOUND then 0 else toDWORD (-1)
  else 1

/-! ## The exported entry points -/

/-- Lines 47-80 of `CreateRule`: the `put_` calls made on the new rule. -/
def populateRule (name : String) (action : NET_FW_ACTION) (direction : NET_FW_RULE_DIRECTION)
    (protocol : LONG) (localAddresses localPorts remoteAddresses remotePorts : BSTR) : INetFwRule :=
  let r : INetFwRule := {}
  let r := { r with Name := some name }
  let r := { r with Direction := some direction }
  let r := { r with Action := some action }
  let r := { r with Enabled := some true }
  let r := if protocol ≠ 0 then { r with Protocol := some protocol } else r
  let r := if localAddresses.isSome then { r with LocalAddresses := localAddresses } else r
  let r := if localPorts.isSome && portAllowed protocol then { r with LocalPorts := localPorts } else r
  let r := if remoteAddresses.isSome then { r with RemoteAddresses := remoteAddresses } else r
  let r := if remotePorts.isSome && portAllowed protocol then { r with RemotePorts := remotePorts } else r
  r

/-- Function `CreateRule` (firewall.c:14-92), started on platform state `s` with an
empty log. -/
def CreateRule (P : Platform σ) (name : BSTR) (action : NET_FW_ACTION)
    (direction : NET_FW_RULE_DIRECTION) (protocol : LONG)
    (localAddresses localPorts remoteAddresses remotePorts : BSTR) (s : σ) : HRESULT × World σ :=
  let i := initializeFirewallPolicy P { st := s, log := [] }
  if FAILED i.1 then (i.1, cleanup P i.2.1 none none i.2.2) else
  let g := get_Rules P i.2.2
  if FAILED g.1 then (g.1, cleanup P i.2.1 g.2.1 none g.2.2) else
  let c := initializeFirewallRule P g.2.2
  if FAILED c.1 then (c.1, cleanup P i.2.1 g.2.1 c.2.1 c.2.2) else
  match name with
  | none => (1, cleanup P i.2.1 g.2.1 c.2.1 c.2.2)
  | some nm =>
    let a := invoke P (Call.Add (populateRule nm action direction protocol
      localAddresses localPorts remoteAddresses remotePorts)) c.2.2
    let w := cleanup P i.2.1 g.2.1 c.2.1 a.2
    if FAILED a.1 then (a.1, w) else (S_OK, w)

/-- The `while` loop of `DeleteRule` (firewall.c:134-140) with at most `fuel`
evaluations of its condition.  The condition is the value assigned to
`exists`, so the body runs whenever `checkRule` returns a non-zero value.
Result: `some (exists, ret, pRule)` when the loop was left, `none` when the
fuel ran out; the world reached is returned in both cases. -/
def DeleteRule.loop (P : Platform σ) (n : BSTR) :
    Nat → HRESULT → Option Obj → World σ → Option (DWORD × HRESULT × Option Obj) × World σ
  | 0, _, _, w => (none, w)
  | fuel + 1, ret, pRule, w =>
    let c := checkRule P pRule n w
    if c.1 ≠ 0 then
      let r := invoke P (Call.Remove n) c.2.2
      DeleteRule.loop P n fuel (if FAILED r.1 then r.1 else ret) c.2.1 r.2
    else (some (c.1, ret, c.2.1), c.2.2)

/-- Function `DeleteRule` (firewall.c:106-150), started on platform state `s` with an
empty log; `none` when the loop did not end within `fuel` lookups. -/
def DeleteRule (P : Platform σ) (fuel : Nat) (name : BSTR) (s : σ) : Option HRESULT × World σ :=
  let i := initializeFirewallPolicy P { st := s, log := [] }
  if FAILED i.1 then (some i.1, cleanup P i.2.1 none none i.2.2) else
  let g := get_Rules P i.2.2
  if FAILED g.1 then (some g.1, cleanup P i.2.1 g.2.1 none g.2.2) else
  match DeleteRule.loop P name fuel S_OK none g.2.2 with
  | (none, w) => (none, w)
  | (some (exists_, ret, pRule), w) =>
    if exists_ = toDWORD (-1) then (some 1, cleanup P i.2.1 g.2.1 pRule w)
    else (some ret, cleanup P i.2.1 g.2.1 pRule w)

/-- Function `RuleExists` (firewall.c:152-180), started on platform state `s` with an
empty log. -/
def RuleExists (P : Platform σ) (name : BSTR) (s : σ) : DWORD × World σ :=
  let i := initializeFirewallPolicy P { st := s, log := [] }
  if FAILED i.1 then (toDWORD (-1), cleanup P i.2.1 none none i.2.2) else
  let g := get_Rules P i.2.2
  if FAILED g.1 then (toDWORD (-1), cleanup P i.2.1 g.2.1 none g.2.2) else
  let c := checkRule P none name g.2.2
  (c.1, cleanup P i.2.1 g.2.1 c.2.1 c.2.2)

/-! ## Reading the log -/

/-- Number of `Remove` calls in a log. -/
def removeCount (log : List (Call × HRESULT)) : Nat :=
  log.countP (fun e => e.1.isRemove)

/-- Number of `Item` calls in a log. -/
def lookupCount (log : List (Call × HRESULT)) : Nat :=
  log.countP (fun e => e.1.isItem)

/-- Number of `Item` calls in a log that succeeded (lookups that found a rule
and handed out a pointer to it). -/
def foundCount (log : List (Call × HRESULT)) : Nat :=
  log.countP (fun e => e.1.isItem && !FAILED e.2)

/-- Number of rule pointers released in a log. -/
def ruleReleaseCount (log : List (Call × HRESULT)) : Nat :=
  log.countP (fun e => e.1.isRuleRelease)

/-- The value of `ret` after the calls of `log`, starting from `ret`: every
`Remove` that failed overwrites it with its result code. -/
def retAfter (ret : HRESULT) (log : List (Call × HRESULT)) : HRESULT :=
  log.foldl (fun acc e => if e.1.isRemove && FAILED e.2 then e.2 else acc) ret

/-! ## Reference platforms -/

/-- A policy store after the contract of the specification (section 6): the
state is the list of stored rules, names are not unique, `Item` finds a rule by
name or reports the not-found code, `Add` stores the rule, `Remove` removes one
rule of the given name, and every other call succeeds. -/
def listStore : Platform (List INetFwRule) where
  respond := fun c rules =>
    match c with
    | Call.Item n =>
      if rules.any (fun r => r.Name == n) then (S_OK, rules)
      else (HRESULT_FROM_WIN32 ERROR_FILE_NOT_FOUND, rules)
    | Call.Add r => (S_OK, rules ++ [r])
    | Call.Remove n =>
      if rules.any (fun r => r.Name == n) then (S_OK, rules.eraseP (fun r => r.Name == n))
      else (HRESULT_FROM_WIN32 ERROR_FILE_NOT_FOUND, rules)
    | _ => (S_OK, rules)

/-- Number of rules of a given name held by `listStore`. -/
def listCount (n : BSTR) (rules : List INetFwRule) : Nat :=
  rules.countP (fun r => r.Name == n)

/-- A platform that is reachable and whose lookups agree with a count of the
stored rules: `cnt n s` is the number of rules named `n` held in state `s`.
Acquisition calls succeed; only `Add` and `Remove` change the counts; `Item`
succeeds on a name that has a rule and reports the not-found code on a name
that has none. -/
structure StoreModel (P : Platform σ) (cnt : BSTR → σ → Nat) : Prop where
  acquire_ok : ∀ c s, c.isAcquire = true → FAILED (P.respond c s).1 = false
  frame : ∀ c s n, c.isAdd = false → c.isRemove = false → cnt n (P.respond c s).2 = cnt n s
  item_found : ∀ n s, 0 < cnt n s → FAILED (P.respond (Call.Item n) s).1 = false
  item_absent : ∀ n s, cnt n s = 0 →
    (P.respond (Call.Item n) s).1 = HRESULT_FROM_WIN32 ERROR_FILE_NOT_FOUND

/-- The SDK constant `E_FAIL` (`0x80004005`). -/
def E_FAIL : HRESULT := toHRESULT 2147500037

/-- The SDK constant `E_ACCESSDENIED` (`0x80070005`). -/
def E_ACCESSDENIED : HRESULT := toHRESULT 2147942405

/-- A store in which every lookup finds a rule and every `Remove` fails. -/
def stubbornStore : Platform Unit where
  respond := fun c _ =>
    match c with
    | Call.Remove _ => (E_ACCESSDENIED, ())
    | _ => (S_OK, ())

/-- A store whose first lookup fails with `E_FAIL` and whose later lookups
report not-found; the state counts the lookups made. -/
def flakyStore : Platform Nat where
  respond := fun c k =>
    match c with
    | Call.Item _ => (if k = 0 then E_FAIL else HRESULT_FROM_WIN32 ERROR_FILE_NOT_FOUND, k + 1)
    | _ => (S_OK, k)

/-- A store whose first `Remove` fails with `E_ACCESSDENIED` and removes
nothing, and whose later `Remove` calls each remove one rule; the state is the
number of rules left (of whatever name) and the number of `Remove` calls seen. -/
def grudgingStore : Platform (Nat × Nat) where
  respond := fun c s =>
    match c with
    | Call.Item _ => (if s.1 = 0 then HRESULT_FROM_WIN32 ERROR_FILE_NOT_FOUND else S_OK, s)
    | Call.Remove _ => if s.2 = 0 then (E_ACCESSDENIED, (s.1, 1)) else (S_OK, (s.1 - 1, s.2 + 1))
    | _ => (S_OK, s)

/-- A store that cannot be reached: every call fails with `E_FAIL`. -/
def deadStore : Platform Unit where
  respond := fun _ _ => (E_FAIL, ())

/-! ## Runs as sequences of calls -/

/-- The world `w2` is reached from `w1` by issuing calls whose log entries all
satisfy `q`. -/
inductive Steps (P : Platform σ) (q : Call × HRESULT → Prop) : World σ → World σ → Prop where
  | refl (w : World σ) : Steps P q w w
  | tail {w1 w2 : World σ} (c : Call) :
      Steps P q w1 w2 → q (c, (invoke P c w2).1) → Steps P q w1 (invoke P c w2).2

/-! ## Elementary facts -/

theorem FAILED_not_found : FAILED (HRESULT_FROM_WIN32 ERROR_FILE_NOT_FOUND) = true := by decide

theorem FAILED_S_OK : FAILED S_OK = false := by decide

theorem invoke_fst (P : Platform σ) (c : Call) (w : World σ) :
    (invoke P c w).1 = (P.respond c w.st).1 := rfl

theorem invoke_st (P : Platform σ) (c : Call) (w : World σ) :
    (invoke P c w).2.st = (P.respond c w.st).2 := rfl

theorem invoke_log (P : Platform σ) (c : Call) (w : World σ) :
    (invoke P c w).2.log = w.log ++ [(c, (invoke P c w).1)] := rfl

theorem mem_invoke_log (P : Platform σ) (c : Call) (w : World σ) :
    (c, (invoke P c w).1) ∈ (invoke P c w).2.log := by
  simp [invoke_log]

theorem Steps.mono {P : Platform σ} {q q2 : Call × HRESULT → Prop} {w1 w2 : World σ}
    (h : Steps P q w1 w2) (hq : ∀ e, q e → q2 e) : Steps P q2 w1 w2 := by
  induction h with
  | refl => exact Steps.refl _
  | tail c _ hc ih => exact Steps.tail c ih (hq _ hc)

theorem Steps.trans {P : Platform σ} {q : Call × HRESULT → Prop} {w1 w2 w3 : World σ}
    (h12 : Steps P q w1 w2) (h23 : Steps P q w2 w3) : Steps P q w1 w3 := by
  induction h23 with
  | refl => exact h12
  | tail c _ hc ih => exact Steps.tail c ih hc

/-- The log only grows, by entries satisfying `q`. -/
theorem Steps.log {P : Platform σ} {q : Call × HRESULT → Prop} {w1 w2 : World σ}
    (h : Steps P q w1 w2) : ∃ ext, w2.log = w1.log ++ ext ∧ ∀ e ∈ ext, q e := by
  induction h with
  | refl => exact ⟨[], by simp, by simp⟩
  | @tail w c _ hc ih =>
    obtain ⟨ext, he, hall⟩ := ih
    refine ⟨ext ++ [(c, (invoke P c w).1)], by simp [invoke_log, he], ?_⟩
    intro e hmem
    rcases List.mem_append.mp hmem with h1 | h1
    · exact hall e h1
    · simp at h1
      subst h1
      exact hc

/-- A property of the platform state kept by every call that `q` admits is
kept along the steps. -/
theorem Steps.inv {P : Platform σ} {q : Call × HRESULT → Prop} {w1 w2 : World σ}
    (h : Steps P q w1 w2) (Inv : σ → Prop)
    (hstep : ∀ c s, q (c, (P.respond c s).1) → Inv s → Inv (P.respond c s).2)
    (h1 : Inv w1.st) : Inv w2.st := by
  induction h with
  | refl => exact h1
  | tail c _ hc ih => exact hstep c _ hc ih

/-- From an empty log, every entry of the log reached satisfies `q`. -/
theorem Steps.all {P : Platform σ} {q : Call × HRESULT → Prop} {w1 w2 : World σ}
    (h : Steps P q w1 w2) (h0 : w1.log = []) : ∀ e ∈ w2.log, q e := by
  obtain ⟨ext, he, hall⟩ := h.log
  intro e hmem
  rw [he, h0] at hmem
  exact hall e (by simpa using hmem)

/-- Calls of `initializeFirewallPolicy`: acquisitions only. -/
theorem initializeFirewallPolicy_steps (P : Platform σ) (w : World σ) :
    Steps P (fun e => e.1.isAcquire = true) w (initializeFirewallPolicy P w).2.2 := by
  unfold initializeFirewallPolicy
  simp only []
  split_ifs
  all_goals repeat (first | exact Steps.refl _ | refine Steps.tail _ ?_ rfl)

/-- When `initializeFirewallPolicy` succeeds it returns `S_OK` and the policy
pointer, and none of its calls failed. -/
theorem initializeFirewallPolicy_ok (P : Platform σ) (w : World σ)
    (h : FAILED (initializeFirewallPolicy P w).1 = false) :
    (initializeFirewallPolicy P w).1 = S_OK ∧
    (initializeFirewallPolicy P w).2.1 = some Obj.policy ∧
    Steps P (fun e => e.1.isAcquire = true ∧ FAILED e.2 = false) w
      (initializeFirewallPolicy P w).2.2 := by
  unfold initializeFirewallPolicy at h ⊢
  simp only [] at h ⊢
  split_ifs at h ⊢ with h1 h2 h3 h4
  all_goals first | (exfalso; simp_all; done) | skip
  refine ⟨rfl, rfl, ?_⟩
  simp only [Bool.not_eq_true] at h1 h2 h3 h4
  exact Steps.tail _ (Steps.tail _ (Steps.tail _ (Steps.tail _ (Steps.refl _) ⟨rfl, h1⟩)
    ⟨rfl, h2⟩) ⟨rfl, h3⟩) ⟨rfl, h4⟩

/-- When `initializeFirewallPolicy` fails the pointer stays `NULL` and the log
holds an acquisition call that failed. -/
theorem initializeFirewallPolicy_fail (P : Platform σ) (w : World σ)
    (h : FAILED (initializeFirewallPolicy P w).1 = true) :
    (initializeFirewallPolicy P w).2.1 = none ∧
    ∃ e ∈ (initializeFirewallPolicy P w).2.2.log, e.1.isAcquire = true ∧ FAILED e.2 = true := by
  unfold initializeFirewallPolicy at h ⊢
  simp only [] at h ⊢
  split_ifs at h ⊢ with h1 h2 h3 h4
  · exact ⟨rfl, _, mem_invoke_log P _ _, rfl, h1⟩
  · exact ⟨rfl, _, mem_invoke_log P _ _, rfl, h2⟩
  · exact ⟨rfl, _, mem_invoke_log P _ _, rfl, h3⟩
  · exact ⟨rfl, _, mem_invoke_log P _ _, rfl, h4⟩
  · simp [FAILED_S_OK] at h

/-- Calls of `initializeFirewallRule`: acquisitions only. -/
theorem initializeFirewallRule_steps (P : Platform σ) (w : World σ) :
    Steps P (fun e => e.1.isAcquire = true) w (initializeFirewallRule P w).2.2 := by
  unfold initializeFirewallRule
  simp only []
  split_ifs
  all_goals repeat (first | exact Steps.refl _ | refine Steps.tail _ ?_ rfl)

/-- When `initializeFirewallRule` succeeds it returns `S_OK` and a rule
pointer, and none of its calls failed. -/
theorem initializeFirewallRule_ok (P : Platform σ) (w : World σ)
    (h : FAILED (initializeFirewallRule P w).1 = false) :
    (initializeFirewallRule P w).1 = S_OK ∧
    (∃ k, (initializeFirewallRule P w).2.1 = some (Obj.rule k)) ∧
    Steps P (fun e => e.1.isAcquire = true ∧ FAILED e.2 = false) w
      (initializeFirewallRule P w).2.2 := by
  unfold initializeFirewallRule at h ⊢
  simp only [] at h ⊢
  split_ifs at h ⊢ with h1 h2 h3
  all_goals first | (exfalso; simp_all; done) | skip
  refine ⟨rfl, ⟨_, rfl⟩, ?_⟩
  simp only [Bool.not_eq_true] at h1 h2 h3
  exact Steps.tail _ (Steps.tail _ (Steps.tail _ (Steps.refl _) ⟨rfl, h1⟩) ⟨rfl, h2⟩) ⟨rfl, h3⟩

/-- When `initializeFirewallRule` fails the pointer stays `NULL` and the log
holds an acquisition call that failed. -/
theorem initializeFirewallRule_fail (P : Platform σ) (w : World σ)
    (h : FAILED (initializeFirewallRule P w).1 = true) :
    (initializeFirewallRule P w).2.1 = none ∧
    ∃ e ∈ (initializeFirewallRule P w).2.2.log, e.1.isAcquire = true ∧ FAILED e.2 = true := by
  unfold initializeFirewallRule at h ⊢
  simp only [] at h ⊢
  split_ifs at h ⊢ with h1 h2 h3
  · exact ⟨rfl, _, mem_invoke_log P _ _, rfl, h1⟩
  · exact ⟨rfl, _, mem_invoke_log P _ _, rfl, h2⟩
  · exact ⟨rfl, _, mem_invoke_log P _ _, rfl, h3⟩
  · simp [FAILED_S_OK] at h

theorem get_Rules_steps (P : Platform σ) (w : World σ) :
    Steps P (fun e => e.1.isAcquire = true) w (get_Rules P w).2.2 :=
  Steps.tail _ (Steps.refl _) rfl

theorem get_Rules_ok (P : Platform σ) (w : World σ) (h : FAILED (get_Rules P w).1 = false) :
    (get_Rules P w).2.1 = some Obj.rules ∧
    Steps P (fun e => e.1.isAcquire = true ∧ FAILED e.2 = false) w (get_Rules P w).2.2 := by
  refine ⟨?_, Steps.tail _ (Steps.refl _) ⟨rfl, h⟩⟩
  simp only [get_Rules] at h ⊢
  simp [h]

theorem get_Rules_fail (P : Platform σ) (w : World σ) (h : FAILED (get_Rules P w).1 = true) :
    (get_Rules P w).2.1 = none ∧
    ∃ e ∈ (get_Rules P w).2.2.log, e.1.isAcquire = true ∧ FAILED e.2 = true := by
  refine ⟨?_, _, mem_invoke_log P Call.get_Rules w, rfl, h⟩
  simp only [get_Rules] at h ⊢
  simp [h]

theorem releaseIf_steps (P : Platform σ) (p : Option Obj) (w : World σ) :
    Steps P (fun e => e.1.isTeardown = true) w (releaseIf P p w) := by
  cases p with
  | none => exact Steps.refl _
  | some o => exact Steps.tail _ (Steps.refl _) rfl

/-- Calls of `cleanup`: releases and `CoUninitialize` only. -/
theorem cleanup_steps (P : Platform σ) (p1 p2 p3 : Option Obj) (w : World σ) :
    Steps P (fun e => e.1.isTeardown = true) w (cleanup P p1 p2 p3 w) :=
  Steps.tail _ (((releaseIf_steps P p1 w).trans (releaseIf_steps P p2 _)).trans
    (releaseIf_steps P p3 _)) rfl

theorem checkRule_fst (P : Platform σ) (pp : Option Obj) (n : BSTR) (w : World σ) :
    (checkRule P pp n w).1 = lookupResult (invoke P (Call.Item n) w).1 := by
  unfold checkRule lookupResult
  simp only []
  split_ifs <;> rfl

theorem checkRule_world (P : Platform σ) (pp : Option Obj) (n : BSTR) (w : World σ) :
    (checkRule P pp n w).2.2 = (invoke P (Call.Item n) w).2 := by
  unfold checkRule
  simp only []
  split_ifs <;> rfl

theorem lookupResult_cases (hr : HRESULT) :
    (lookupResult hr = 1 ∧ FAILED hr = false) ∨
    (lookupResult hr = 0 ∧ hr = HRESULT_FROM_WIN32 ERROR_FILE_NOT_FOUND) ∨
    (lookupResult hr = 4294967295 ∧ FAILED hr = true ∧ hr ≠ HRESULT_FROM_WIN32 ERROR_FILE_NOT_FOUND) := by
  unfold lookupResult
  split_ifs with h1 h2
  · exact Or.inr (Or.inl ⟨rfl, h2⟩)
  · exact Or.inr (Or.inr ⟨by decide, h1, h2⟩)
  · exact Or.inl ⟨rfl, by simpa using h1⟩

theorem lookupResult_eq_zero (hr : HRESULT) :
    lookupResult hr = 0 ↔ hr = HRESULT_FROM_WIN32 ERROR_FILE_NOT_FOUND := by
  constructor
  · intro h
    rcases lookupResult_cases hr with ⟨h1, _⟩ | ⟨_, h2⟩ | ⟨h3, _⟩
    · rw [h] at h1; exact absurd h1 (by decide)
    · exact h2
    · rw [h] at h3; exact absurd h3 (by decide)
  · intro h
    subst h
    decide

theorem lookupResult_of_ok (hr : HRESULT) (h : FAILED hr = false) : lookupResult hr = 1 := by
  simp [lookupResult, h]

theorem Call.of_isAcquire {c : Call} (h : c.isAcquire = true) :
    c.isItem = false ∧ c.isAdd = false ∧ c.isRemove = false ∧ c.isTeardown = false ∧
      c.isRuleRelease = false := by
  cases c <;> simp_all [Call.isAcquire, Call.isItem, Call.isAdd, Call.isRemove, Call.isTeardown,
    Call.isRuleRelease]

theorem Call.of_isTeardown {c : Call} (h : c.isTeardown = true) :
    c.isItem = false ∧ c.isAdd = false ∧ c.isRemove = false ∧ c.isAcquire = false := by
  cases c <;> simp_all [Call.isAcquire, Call.isItem, Call.isAdd, Call.isRemove, Call.isTeardown]

/-- Entries of the log are never dropped. -/
theorem Steps.mem {P : Platform σ} {q : Call × HRESULT → Prop} {w1 w2 : World σ}
    (h : Steps P q w1 w2) {e : Call × HRESULT} (he : e ∈ w1.log) : e ∈ w2.log := by
  obtain ⟨ext, hext, _⟩ := h.log
  rw [hext]
  exact List.mem_append_left _ he

/-- The two shapes of a run of `RuleExists`: either an acquisition failed, the
result is `-1` and only acquisition and cleanup calls were made; or the log is
successful acquisitions, one `Item` call on the name, then cleanup calls, and
the result is the value `checkRule` computes from the answer of that call. -/
theorem RuleExists_shape (P : Platform σ) (name : BSTR) (s : σ) :
    ((RuleExists P name s).1 = toDWORD (-1) ∧
      (∀ e ∈ (RuleExists P name s).2.log, e.1.isAcquire = true ∨ e.1.isTeardown = true) ∧
      ∃ e ∈ (RuleExists P name s).2.log, e.1.isAcquire = true ∧ FAILED e.2 = true) ∨
    (∃ A T hr, (RuleExists P name s).2.log = A ++ (Call.Item name, hr) :: T ∧
      (∀ e ∈ A, e.1.isAcquire = true ∧ FAILED e.2 = false) ∧
      (∀ e ∈ T, e.1.isTeardown = true) ∧
      (RuleExists P name s).1 = lookupResult hr) := by
  unfold RuleExists
  simp only []
  have hi := initializeFirewallPolicy_steps P { st := s, log := [] }
  by_cases h1 : FAILED (initializeFirewallPolicy P { st := s, log := [] }).1 = true
  · rw [if_pos h1]
    left
    obtain ⟨_, e, he, hacq, hf⟩ := initializeFirewallPolicy_fail P _ h1
    have hc := cleanup_steps P (initializeFirewallPolicy P { st := s, log := [] }).2.1 none none
      (initializeFirewallPolicy P { st := s, log := [] }).2.2
    refine ⟨rfl, ?_, e, hc.mem he, hacq, hf⟩
    exact ((hi.mono (fun _ h => Or.inl h)).trans (hc.mono (fun _ h => Or.inr h))).all rfl
  · rw [if_neg h1]
    simp only [Bool.not_eq_true] at h1
    obtain ⟨_, _, hi2⟩ := initializeFirewallPolicy_ok P _ h1
    have hg := get_Rules_steps P (initializeFirewallPolicy P { st := s, log := [] }).2.2
    by_cases h2 : FAILED (get_Rules P (initializeFirewallPolicy P { st := s, log := [] }).2.2).1 = true
    · rw [if_pos h2]
      left
      obtain ⟨_, e, he, hacq, hf⟩ := get_Rules_fail P _ h2
      have hc := cleanup_steps P (initializeFirewallPolicy P { st := s, log := [] }).2.1
        (get_Rules P (initializeFirewallPolicy P { st := s, log := [] }).2.2).2.1 none
        (get_Rules P (initializeFirewallPolicy P { st := s, log := [] }).2.2).2.2
      refine ⟨rfl, ?_, e, hc.mem he, hacq, hf⟩
      exact (((hi.trans hg).mono (fun _ h => Or.inl h)).trans
        (hc.mono (fun _ h => Or.inr h))).all rfl
    · rw [if_neg h2]
      simp only [Bool.not_eq_true] at h2
      right
      obtain ⟨_, hg2⟩ := get_Rules_ok P _ h2
      obtain ⟨A, hA, hAall⟩ := (hi2.trans hg2).log
      have hc := cleanup_steps P (initializeFirewallPolicy P { st := s, log := [] }).2.1
        (get_Rules P (initializeFirewallPolicy P { st := s, log := [] }).2.2).2.1
        (checkRule P none name (get_Rules P (initializeFirewallPolicy P { st := s, log := [] }).2.2).2.2).2.1
        (checkRule P none name (get_Rules P (initializeFirewallPolicy P { st := s, log := [] }).2.2).2.2).2.2
      obtain ⟨T, hT, hTall⟩ := hc.log
      refine ⟨A, T, _, ?_, hAall, hTall, checkRule_fst P none name _⟩
      rw [hT, checkRule_world, invoke_log, hA]
      simp

/-- The result of `RuleExists` read off its log: it is `1`, `0` or `2^32 - 1`;
`1` exactly when the lookup of the name succeeded, `0` exactly when it was
answered with the not-found code, `2^32 - 1` exactly when it failed with
another code or an acquisition call failed; at most one lookup is made and
`Add` and `Remove` are never called. -/
theorem RuleExists_log_facts (P : Platform σ) (name : BSTR) (s : σ) :
    ((RuleExists P name s).1 = 1 ∨ (RuleExists P name s).1 = 0 ∨
      (RuleExists P name s).1 = 4294967295) ∧
    ((RuleExists P name s).1 = 1 ↔
      ∃ hr, (Call.Item name, hr) ∈ (RuleExists P name s).2.log ∧ FAILED hr = false) ∧
    ((RuleExists P name s).1 = 0 ↔
      (Call.Item name, HRESULT_FROM_WIN32 ERROR_FILE_NOT_FOUND) ∈ (RuleExists P name s).2.log) ∧
    ((RuleExists P name s).1 = 4294967295 ↔
      (∃ hr, (Call.Item name, hr) ∈ (RuleExists P name s).2.log ∧ FAILED hr = true ∧
        hr ≠ HRESULT_FROM_WIN32 ERROR_FILE_NOT_FOUND) ∨
      (∃ e ∈ (RuleExists P name s).2.log, e.1.isAcquire = true ∧ FAILED e.2 = true)) ∧
    lookupCount (RuleExists P name s).2.log ≤ 1 ∧
    (∀ e ∈ (RuleExists P name s).2.log, e.1.isAdd = false ∧ e.1.isRemove = false) := by
  have hshape := RuleExists_shape P name s
  generalize RuleExists P name s = r at hshape
  have hm1 : toDWORD (-1) = 4294967295 := by decide
  rcases hshape with ⟨hr1, hall, hex⟩ | ⟨A, T, hr, hlog, hA, hT, hval⟩
  · -- an acquisition failed
    have hnoItem : ∀ h, (Call.Item name, h) ∉ r.2.log := by
      intro h hmem
      have := hall _ hmem
      simp [Call.isAcquire, Call.isTeardown] at this
    rw [hr1, hm1]
    refine ⟨Or.inr (Or.inr rfl), ?_, ?_, ?_, ?_, ?_⟩
    · constructor
      · intro h; exact absurd h (by decide)
      · rintro ⟨h, hmem, _⟩; exact absurd hmem (hnoItem h)
    · constructor
      · intro h; exact absurd h (by decide)
      · intro hmem; exact absurd hmem (hnoItem _)
    · exact ⟨fun _ => Or.inr hex, fun _ => rfl⟩
    · have : lookupCount r.2.log = 0 := by
        unfold lookupCount
        rw [List.countP_eq_zero]
        intro e he
        rcases hall e he with h | h
        · simp [(Call.of_isAcquire h).1]
        · simp [(Call.of_isTeardown h).1]
      omega
    · intro e he
      rcases hall e he with h | h
      · exact ⟨(Call.of_isAcquire h).2.1, (Call.of_isAcquire h).2.2.1⟩
      · exact ⟨(Call.of_isTeardown h).2.1, (Call.of_isTeardown h).2.2.1⟩
  · -- the lookup was made
    have hmemItem : ∀ h, (Call.Item name, h) ∈ r.2.log ↔ h = hr := by
      intro h
      rw [hlog]
      constructor
      · intro hmem
        rcases List.mem_append.mp hmem with h1 | h1
        · have := (hA _ h1).1
          simp [Call.isAcquire] at this
        · rcases List.mem_cons.mp h1 with h2 | h2
          · exact (Prod.mk.inj h2).2
          · have := hT _ h2
            simp [Call.isTeardown] at this
      · intro h1
        subst h1
        simp
    have hnoFail : ¬ ∃ e ∈ r.2.log, e.1.isAcquire = true ∧ FAILED e.2 = true := by
      rintro ⟨e, he, hacq, hf⟩
      rw [hlog] at he
      rcases List.mem_append.mp he with h1 | h1
      · have := (hA _ h1).2
        rw [hf] at this
        exact absurd this (by decide)
      · rcases List.mem_cons.mp h1 with h2 | h2
        · subst h2
          simp [Call.isAcquire] at hacq
        · have := (Call.of_isTeardown (hT _ h2)).2.2.2
          rw [hacq] at this
          exact absurd this (by decide)
    rw [hval]
    refine ⟨?_, ?_, ?_, ?_, ?_, ?_⟩
    · rcases lookupResult_cases hr with ⟨h, _⟩ | ⟨h, _⟩ | ⟨h, _⟩
      · exact Or.inl h
      · exact Or.inr (Or.inl h)
      · exact Or.inr (Or.inr h)
    · constructor
      · intro h1
        refine ⟨hr, (hmemItem hr).mpr rfl, ?_⟩
        rcases lookupResult_cases hr with ⟨_, h⟩ | ⟨h, _⟩ | ⟨h, _⟩
        · exact h
        · rw [h] at h1; exact absurd h1 (by decide)
        · rw [h] at h1; exact absurd h1 (by decide)
      · rintro ⟨h, hmem, hf⟩
        have := (hmemItem h).mp hmem
        subst this
        rcases lookupResult_cases h with ⟨h1, _⟩ | ⟨_, h2⟩ | ⟨_, h3, _⟩
        · exact h1
        · rw [h2] at hf; exact absurd hf (by decide)
        · rw [h3] at hf; exact absurd hf (by decide)
    · rw [hmemItem, lookupResult_eq_zero]
      exact eq_comm
    · constructor
      · intro h1
        left
        refine ⟨hr, (hmemItem hr).mpr rfl, ?_⟩
        rcases lookupResult_cases hr with ⟨h, _⟩ | ⟨h, _⟩ | ⟨_, h2, h3⟩
        · rw [h] at h1; exact absurd h1 (by decide)
        · rw [h] at h1; exact absurd h1 (by decide)
        · exact ⟨h2, h3⟩
      · rintro (⟨h, hmem, hf, hne⟩ | hfail)
        · have := (hmemItem h).mp hmem
          subst this
          rcases lookupResult_cases h with ⟨_, h1⟩ | ⟨_, h2⟩ | ⟨h3, _⟩
          · rw [h1] at hf; exact absurd hf (by decide)
          · exact absurd h2 hne
          · exact h3
        · exact absurd hfail hnoFail
    · unfold lookupCount
      rw [hlog, List.countP_append, List.countP_cons]
      have h1 : List.countP (fun e => e.1.isItem) A = 0 := by
        rw [List.countP_eq_zero]
        intro e he
        simp [(Call.of_isAcquire (hA e he).1).1]
      have h2 : List.countP (fun e => e.1.isItem) T = 0 := by
        rw [List.countP_eq_zero]
        intro e he
        simp [(Call.of_isTeardown (hT e he)).1]
      rw [h1, h2]
      simp [Call.isItem]
    · intro e he
      rw [hlog] at he
      rcases List.mem_append.mp he with h1 | h1
      · have := Call.of_isAcquire (hA _ h1).1
        exact ⟨this.2.1, this.2.2.1⟩
      · rcases List.mem_cons.mp h1 with h2 | h2
        · subst h2
          simp [Call.isAdd, Call.isRemove]
        · have := Call.of_isTeardown (hT _ h2)
          exact ⟨this.2.1, this.2.2.1⟩

/-- When one of its four calls fails in every state of the platform,
`initializeFirewallPolicy` fails. -/
theorem initializeFirewallPolicy_fails_of (P : Platform σ) (c : Call) (hc : c ∈ sessionCalls)
    (h : ∀ s, FAILED (P.respond c s).1 = true) (w : World σ) :
    FAILED (initializeFirewallPolicy P w).1 = true := by
  unfold initializeFirewallPolicy
  simp only []
  split_ifs with h1 h2 h3 h4
  · exact h1
  · exact h2
  · exact h3
  · exact h4
  · exfalso
    simp only [sessionCalls, List.mem_cons, List.mem_singleton, List.not_mem_nil, or_false] at hc
    rcases hc with rfl | rfl | rfl | rfl
    · exact h1 (h _)
    · exact h2 (h _)
    · exact h3 (h _)
    · exact h4 (h _)

/-- C3: `RuleExists` returns exactly one of `1`, `0`, `2^32 - 1`.  It is
`2^32 - 1` whenever `initializeFirewallPolicy` fails on the platform, whenever
`get_Rules` fails on it, and so on every platform on which one of the five
acquisition calls (session or collection) always fails; otherwise it is the
value computed from the platform's answer to the single `Item` call on the
name: `1` when that call succeeded, `0` when it was answered with
`HRESULT_FROM_WIN32(ERROR_FILE_NOT_FOUND)`, `2^32 - 1` for any other failure.
The same reads off the log, which holds at most one lookup and no `Add` or
`Remove`. -/
theorem RuleExists_tristate (P : Platform σ) (name : BSTR) (s : σ) :
    ((RuleExists P name s).1 = 1 ∨ (RuleExists P name s).1 = 0 ∨
      (RuleExists P name s).1 = 4294967295) ∧
    ((RuleExists P name s).1 = 1 ↔
      ∃ hr, (Call.Item name, hr) ∈ (RuleExists P name s).2.log ∧ FAILED hr = false) ∧
    ((RuleExists P name s).1 = 0 ↔
      (Call.Item name, HRESULT_FROM_WIN32 ERROR_FILE_NOT_FOUND) ∈ (RuleExists P name s).2.log) ∧
    ((RuleExists P name s).1 = 4294967295 ↔
      (∃ hr, (Call.Item name, hr) ∈ (RuleExists P name s).2.log ∧ FAILED hr = true ∧
        hr ≠ HRESULT_FROM_WIN32 ERROR_FILE_NOT_FOUND) ∨
      (∃ e ∈ (RuleExists P name s).2.log, e.1.isAcquire = true ∧ FAILED e.2 = true)) ∧
    lookupCount (RuleExists P name s).2.log ≤ 1 ∧
    (∀ e ∈ (RuleExists P name s).2.log, e.1.isAdd = false ∧ e.1.isRemove = false) ∧
    (FAILED (initializeFirewallPolicy P { st := s, log := [] }).1 = true →
      (RuleExists P name s).1 = 4294967295) ∧
    (FAILED (initializeFirewallPolicy P { st := s, log := [] }).1 = false →
      FAILED (get_Rules P (initializeFirewallPolicy P { st := s, log := [] }).2.2).1 = true →
      (RuleExists P name s).1 = 4294967295) ∧
    (FAILED (initializeFirewallPolicy P { st := s, log := [] }).1 = false →
      FAILED (get_Rules P (initializeFirewallPolicy P { st := s, log := [] }).2.2).1 = false →
      (RuleExists P name s).1 = lookupResult (P.respond (Call.Item name)
        (get_Rules P (initializeFirewallPolicy P { st := s, log := [] }).2.2).2.2.st).1 ∧
      (Call.Item name, (P.respond (Call.Item name)
        (get_Rules P (initializeFirewallPolicy P { st := s, log := [] }).2.2).2.2.st).1) ∈
          (RuleExists P name s).2.log) ∧
    (∀ c, c ∈ sessionCalls ∨ c = Call.get_Rules →
      (∀ s2, FAILED (P.respond c s2).1 = true) → (RuleExists P name s).1 = 4294967295) := by
  obtain ⟨a1, a2, a3, a4, a5, a6⟩ := RuleExists_log_facts P name s
  have hm1 : toDWORD (-1) = 4294967295 := by decide
  have n2 : FAILED (initializeFirewallPolicy P { st := s, log := [] }).1 = true →
      (RuleExists P name s).1 = 4294967295 := by
    intro h1
    unfold RuleExists
    simp only [h1, if_true]
    exact hm1
  have n3 : FAILED (initializeFirewallPolicy P { st := s, log := [] }).1 = false →
      FAILED (get_Rules P (initializeFirewallPolicy P { st := s, log := [] }).2.2).1 = true →
      (RuleExists P name s).1 = 4294967295 := by
    intro h1 h2
    unfold RuleExists
    simp only [h1, h2, Bool.false_eq_true, if_false, if_true]
    exact hm1
  refine ⟨a1, a2, a3, a4, a5, a6, n2, n3, ?_, ?_⟩
  · intro h1 h2
    have hc := cleanup_steps P (initializeFirewallPolicy P { st := s, log := [] }).2.1
      (get_Rules P (initializeFirewallPolicy P { st := s, log := [] }).2.2).2.1
      (checkRule P none name
        (get_Rules P (initializeFirewallPolicy P { st := s, log := [] }).2.2).2.2).2.1
      (checkRule P none name
        (get_Rules P (initializeFirewallPolicy P { st := s, log := [] }).2.2).2.2).2.2
    unfold RuleExists
    simp only [h1, h2, Bool.false_eq_true, if_false]
    refine ⟨?_, ?_⟩
    · rw [checkRule_fst, invoke_fst]
    · apply hc.mem
      rw [checkRule_world]
      exact mem_invoke_log P (Call.Item name) _
  · intro c hc hfail
    by_cases h1 : FAILED (initializeFirewallPolicy P { st := s, log := [] }).1 = true
    · exact n2 h1
    · simp only [Bool.not_eq_true] at h1
      rcases hc with hc | hc
      · have := initializeFirewallPolicy_fails_of P c hc hfail { st := s, log := [] }
        rw [h1] at this
        exact absurd this (by decide)
      · subst hc
        exact n3 h1 (hfail _)

/-- When `initializeFirewallRule` succeeds, its log holds the
`CoCreateInstance` call that constructed the rule object. -/
theorem initializeFirewallRule_ok_mem (P : Platform σ) (w : World σ)
    (h : FAILED (initializeFirewallRule P w).1 = false) :
    ∃ hr, (Call.CoCreateInstance CLSID_NetFwRule, hr) ∈ (initializeFirewallRule P w).2.2.log := by
  unfold initializeFirewallRule at h ⊢
  simp only [] at h ⊢
  split_ifs at h ⊢ with h1 h2 h3
  all_goals first | (exfalso; simp_all; done) | skip
  exact ⟨_, mem_invoke_log P _ _⟩

/-! ## The rule populated by `CreateRule` -/

theorem populateRule_Name (nm : String) (action : NET_FW_ACTION)
    (direction : NET_FW_RULE_DIRECTION) (protocol : LONG)
    (localAddresses localPorts remoteAddresses remotePorts : BSTR) :
    (populateRule nm action direction protocol localAddresses localPorts remoteAddresses
      remotePorts).Name = some nm := by
  unfold populateRule
  simp only []
  split_ifs <;> rfl

theorem populateRule_LocalPorts (nm : String) (action : NET_FW_ACTION)
    (direction : NET_FW_RULE_DIRECTION) (protocol : LONG)
    (localAddresses localPorts remoteAddresses remotePorts : BSTR) :
    (populateRule nm action direction protocol localAddresses localPorts remoteAddresses
      remotePorts).LocalPorts = if portAllowed protocol = true then localPorts else none := by
  unfold populateRule
  simp only [apply_ite INetFwRule.LocalPorts]
  cases localPorts <;> cases hp : portAllowed protocol <;> simp

theorem populateRule_RemotePorts (nm : String) (action : NET_FW_ACTION)
    (direction : NET_FW_RULE_DIRECTION) (protocol : LONG)
    (localAddresses localPorts remoteAddresses remotePorts : BSTR) :
    (populateRule nm action direction protocol localAddresses localPorts remoteAddresses
      remotePorts).RemotePorts = if portAllowed protocol = true then remotePorts else none := by
  unfold populateRule
  simp only [apply_ite INetFwRule.RemotePorts]
  cases remotePorts <;> cases hp : portAllowed protocol <;> simp

/-- When the protocol does not admit port filters, the populated rule is the
one obtained without port filters. -/
theorem populateRule_ports_dropped (nm : String) (action : NET_FW_ACTION)
    (direction : NET_FW_RULE_DIRECTION) (protocol : LONG)
    (localAddresses localPorts remoteAddresses remotePorts : BSTR)
    (hp : portAllowed protocol = false) :
    populateRule nm action direction protocol localAddresses localPorts remoteAddresses
      remotePorts =
    populateRule nm action direction protocol localAddresses none remoteAddresses none := by
  unfold populateRule
  simp [hp]

/-! ## Where an acquisition fails -/

/-- When `initializeFirewallPolicy` fails, its result is the answer of the
last call it made, an acquisition call, and the calls before it succeeded. -/
theorem initializeFirewallPolicy_fail_at (P : Platform σ) (w : World σ)
    (h : FAILED (initializeFirewallPolicy P w).1 = true) :
    ∃ c wpre, c.isAcquire = true ∧
      Steps P (fun e => e.1.isAcquire = true ∧ FAILED e.2 = false) w wpre ∧
      (initializeFirewallPolicy P w).2.2 = (invoke P c wpre).2 ∧
      (initializeFirewallPolicy P w).1 = (invoke P c wpre).1 := by
  unfold initializeFirewallPolicy at h ⊢
  simp only [] at h ⊢
  split_ifs at h ⊢ with h1 h2 h3 h4
  · exact ⟨Call.IIDFromString CLSID_NetFwPolicy2, w, rfl, Steps.refl _, rfl, rfl⟩
  · simp only [Bool.not_eq_true] at h1
    exact ⟨Call.IIDFromString IID_INetFwPolicy2, _, rfl,
      Steps.tail (Call.IIDFromString CLSID_NetFwPolicy2) (Steps.refl _) ⟨rfl, h1⟩, rfl, rfl⟩
  · simp only [Bool.not_eq_true] at h1 h2
    exact ⟨Call.CoInitializeEx, _, rfl,
      Steps.tail (Call.IIDFromString IID_INetFwPolicy2) (Steps.tail (Call.IIDFromString CLSID_NetFwPolicy2) (Steps.refl _) ⟨rfl, h1⟩) ⟨rfl, h2⟩, rfl, rfl⟩
  · simp only [Bool.not_eq_true] at h1 h2 h3
    exact ⟨Call.CoCreateInstance CLSID_NetFwPolicy2, _, rfl,
      Steps.tail Call.CoInitializeEx (Steps.tail (Call.IIDFromString IID_INetFwPolicy2) (Steps.tail (Call.IIDFromString CLSID_NetFwPolicy2) (Steps.refl _) ⟨rfl, h1⟩) ⟨rfl, h2⟩) ⟨rfl, h3⟩,
      rfl, rfl⟩
  · simp [FAILED_S_OK] at h

/-- When `initializeFirewallRule` fails, its result is the answer of the last
call it made, an acquisition call, and the calls before it succeeded. -/
theorem initializeFirewallRule_fail_at (P : Platform σ) (w : World σ)
    (h : FAILED (initializeFirewallRule P w).1 = true) :
    ∃ c wpre, c.isAcquire = true ∧
      Steps P (fun e => e.1.isAcquire = true ∧ FAILED e.2 = false) w wpre ∧
      (initializeFirewallRule P w).2.2 = (invoke P c wpre).2 ∧
      (initializeFirewallRule P w).1 = (invoke P c wpre).1 := by
  unfold initializeFirewallRule at h ⊢
  simp only [] at h ⊢
  split_ifs at h ⊢ with h1 h2 h3
  · exact ⟨Call.IIDFromString CLSID_NetFwRule, w, rfl, Steps.refl _, rfl, rfl⟩
  · simp only [Bool.not_eq_true] at h1
    exact ⟨Call.IIDFromString IID_INetFwRule, _, rfl,
      Steps.tail (Call.IIDFromString CLSID_NetFwRule) (Steps.refl _) ⟨rfl, h1⟩, rfl, rfl⟩
  · simp only [Bool.not_eq_true] at h1 h2
    exact ⟨Call.CoCreateInstance CLSID_NetFwRule, _, rfl,
      Steps.tail (Call.IIDFromString IID_INetFwRule) (Steps.tail (Call.IIDFromString CLSID_NetFwRule) (Steps.refl _) ⟨rfl, h1⟩) ⟨rfl, h2⟩, rfl, rfl⟩
  · simp [FAILED_S_OK] at h

/-- When `initializeFirewallPolicy` succeeds, its log holds the
`CoInitializeEx` call that opened the session and the `CoCreateInstance` call
that created the policy object. -/
theorem initializeFirewallPolicy_ok_mem (P : Platform σ) (w : World σ)
    (h : FAILED (initializeFirewallPolicy P w).1 = false) :
    (∃ hr, (Call.CoInitializeEx, hr) ∈ (initializeFirewallPolicy P w).2.2.log) ∧
    (∃ hr, (Call.CoCreateInstance CLSID_NetFwPolicy2, hr) ∈
      (initializeFirewallPolicy P w).2.2.log) := by
  unfold initializeFirewallPolicy at h ⊢
  simp only [] at h ⊢
  split_ifs at h ⊢ with h1 h2 h3 h4
  all_goals first | (exfalso; simp_all; done) | skip
  refine ⟨⟨(invoke P Call.CoInitializeEx (invoke P (Call.IIDFromString IID_INetFwPolicy2)
    (invoke P (Call.IIDFromString CLSID_NetFwPolicy2) w).2).2).1, ?_⟩,
    ⟨_, mem_invoke_log P (Call.CoCreateInstance CLSID_NetFwPolicy2) _⟩⟩
  show _ ∈ (invoke P (Call.CoCreateInstance CLSID_NetFwPolicy2) _).2.log
  rw [invoke_log]
  exact List.mem_append_left _ (mem_invoke_log P Call.CoInitializeEx _)

/-! ## The shape of a run of `CreateRule` -/

/-- The three shapes of a run of `CreateRule`: an acquisition (session,
collection, rule object) failed, its answer is the result, and the log is
successful acquisitions, the failed one, then cleanup calls; or the name is
`NULL`, the three acquisitions succeeded, the result is `1` and nothing but
acquisition and cleanup calls were made; or the name is not `NULL` and the log
is successful acquisitions, one `Add` of the populated rule, then cleanup
calls, the result being the code of `Add` when it failed and `S_OK`
otherwise. -/
theorem CreateRule_shape (P : Platform σ) (name : BSTR) (action : NET_FW_ACTION)
    (direction : NET_FW_RULE_DIRECTION) (protocol : LONG)
    (localAddresses localPorts remoteAddresses remotePorts : BSTR) (s : σ)
    (R : HRESULT × World σ)
    (hR : R = CreateRule P name action direction protocol localAddresses localPorts
      remoteAddresses remotePorts s) :
    (FAILED R.1 = true ∧
      (∃ A c T, R.2.log = A ++ (c, R.1) :: T ∧
        (∀ e ∈ A, e.1.isAcquire = true ∧ FAILED e.2 = false) ∧ c.isAcquire = true ∧
        (∀ e ∈ T, e.1.isTeardown = true)) ∧
      (∀ e ∈ R.2.log, e.1.isAcquire = true ∨ e.1.isTeardown = true) ∧
      ∃ e ∈ R.2.log, e.1.isAcquire = true ∧ FAILED e.2 = true) ∨
    (name = none ∧ R.1 = 1 ∧ ∃ A T, R.2.log = A ++ T ∧
      (∀ e ∈ A, e.1.isAcquire = true ∧ FAILED e.2 = false) ∧
      (∀ e ∈ T, e.1.isTeardown = true) ∧
      (∃ hr, (Call.get_Rules, hr) ∈ A) ∧
      (∃ hr, (Call.CoCreateInstance CLSID_NetFwRule, hr) ∈ A) ∧
      (∃ hr, (Call.CoInitializeEx, hr) ∈ A) ∧
      (∃ hr, (Call.CoCreateInstance CLSID_NetFwPolicy2, hr) ∈ A)) ∨
    (∃ nm A T hr, name = some nm ∧
      R.2.log = A ++ (Call.Add (populateRule nm action direction protocol localAddresses
        localPorts remoteAddresses remotePorts), hr) :: T ∧
      (∀ e ∈ A, e.1.isAcquire = true ∧ FAILED e.2 = false) ∧
      (∀ e ∈ T, e.1.isTeardown = true) ∧
      (R.1 = if FAILED hr then hr else S_OK) ∧
      ∃ wpre, hr = (P.respond (Call.Add (populateRule nm action direction protocol localAddresses
          localPorts remoteAddresses remotePorts)) wpre.st).1 ∧
        Steps P (fun e => e.1.isTeardown = true)
          (invoke P (Call.Add (populateRule nm action direction protocol localAddresses
            localPorts remoteAddresses remotePorts)) wpre).2 R.2) := by
  subst hR
  unfold CreateRule
  simp only []
  have hi := initializeFirewallPolicy_steps P { st := s, log := [] }
  by_cases h1 : FAILED (initializeFirewallPolicy P { st := s, log := [] }).1 = true
  · rw [if_pos h1]
    left
    obtain ⟨_, e, he, hacq, hf⟩ := initializeFirewallPolicy_fail P _ h1
    obtain ⟨c, wpre, hcacq, hst, hw, hv⟩ := initializeFirewallPolicy_fail_at P _ h1
    have hc := cleanup_steps P (initializeFirewallPolicy P { st := s, log := [] }).2.1 none none
      (initializeFirewallPolicy P { st := s, log := [] }).2.2
    refine ⟨h1, ?_, ?_, e, hc.mem he, hacq, hf⟩
    · obtain ⟨A, hA, hAall⟩ := hst.log
      obtain ⟨T, hT, hTall⟩ := hc.log
      refine ⟨A, c, T, ?_, hAall, hcacq, hTall⟩
      show (cleanup P _ none none _).log = A ++ (c, (initializeFirewallPolicy P _).1) :: T
      rw [hT, hw, invoke_log, hA, hv]
      simp
    · exact ((hi.mono (fun _ h => Or.inl h)).trans (hc.mono (fun _ h => Or.inr h))).all rfl
  · rw [if_neg h1]
    simp only [Bool.not_eq_true] at h1
    obtain ⟨_, _, hi2⟩ := initializeFirewallPolicy_ok P _ h1
    obtain ⟨hcoinit, hcopol⟩ := initializeFirewallPolicy_ok_mem P _ h1
    generalize initializeFirewallPolicy P { st := s, log := [] } = I at hi hi2 h1 hcoinit hcopol ⊢
    have hg := get_Rules_steps P I.2.2
    by_cases h2 : FAILED (get_Rules P I.2.2).1 = true
    · rw [if_pos h2]
      left
      obtain ⟨_, e, he, hacq, hf⟩ := get_Rules_fail P _ h2
      have hc := cleanup_steps P I.2.1 (get_Rules P I.2.2).2.1 none (get_Rules P I.2.2).2.2
      refine ⟨h2, ?_, ?_, e, hc.mem he, hacq, hf⟩
      · obtain ⟨A, hA, hAall⟩ := hi2.log
        obtain ⟨T, hT, hTall⟩ := hc.log
        refine ⟨A, Call.get_Rules, T, ?_, hAall, rfl, hTall⟩
        show (cleanup P _ _ none (invoke P Call.get_Rules I.2.2).2).log
          = A ++ (Call.get_Rules, (invoke P Call.get_Rules I.2.2).1) :: T
        have hT2 : (cleanup P I.2.1 (get_Rules P I.2.2).2.1 none
            (invoke P Call.get_Rules I.2.2).2).log
              = (invoke P Call.get_Rules I.2.2).2.log ++ T := hT
        rw [hT2, invoke_log, hA]
        simp
      · exact (((hi.trans hg).mono (fun _ h => Or.inl h)).trans
          (hc.mono (fun _ h => Or.inr h))).all rfl
    · rw [if_neg h2]
      simp only [Bool.not_eq_true] at h2
      obtain ⟨_, hg2⟩ := get_Rules_ok P _ h2
      have hgmem : (Call.get_Rules, (get_Rules P I.2.2).1) ∈ (get_Rules P I.2.2).2.2.log :=
        mem_invoke_log P Call.get_Rules I.2.2
      obtain ⟨hr_ci, hcoinit⟩ := hcoinit
      obtain ⟨hr_cp, hcopol⟩ := hcopol
      have hcoinit2 := hg2.mem hcoinit
      have hcopol2 := hg2.mem hcopol
      generalize get_Rules P I.2.2 = G at hg hg2 h2 hgmem hcoinit2 hcopol2 ⊢
      have hr := initializeFirewallRule_steps P G.2.2
      by_cases h3 : FAILED (initializeFirewallRule P G.2.2).1 = true
      · rw [if_pos h3]
        left
        obtain ⟨_, e, he, hacq, hf⟩ := initializeFirewallRule_fail P _ h3
        obtain ⟨c, wpre, hcacq, hst, hw, hv⟩ := initializeFirewallRule_fail_at P _ h3
        have hc := cleanup_steps P I.2.1 G.2.1 (initializeFirewallRule P G.2.2).2.1
          (initializeFirewallRule P G.2.2).2.2
        refine ⟨h3, ?_, ?_, e, hc.mem he, hacq, hf⟩
        · obtain ⟨A, hA, hAall⟩ := ((hi2.trans hg2).trans hst).log
          obtain ⟨T, hT, hTall⟩ := hc.log
          refine ⟨A, c, T, ?_, hAall, hcacq, hTall⟩
          show (cleanup P _ _ _ _).log = A ++ (c, (initializeFirewallRule P _).1) :: T
          rw [hT, hw, invoke_log, hA, hv]
          simp
        · exact ((((hi.trans hg).trans hr).mono (fun _ h => Or.inl h)).trans
            (hc.mono (fun _ h => Or.inr h))).all rfl
      · rw [if_neg h3]
        simp only [Bool.not_eq_true] at h3
        right
        obtain ⟨_, _, hr2⟩ := initializeFirewallRule_ok P _ h3
        obtain ⟨hcc, hccmem⟩ := initializeFirewallRule_ok_mem P _ h3
        have hgmem2 := hr2.mem hgmem
        have hcoinit3 := hr2.mem hcoinit2
        have hcopol3 := hr2.mem hcopol2
        generalize initializeFirewallRule P G.2.2 = C at hr hr2 h3 hccmem hgmem2 hcoinit3 hcopol3 ⊢
        obtain ⟨A, hA, hAall⟩ := ((hi2.trans hg2).trans hr2).log
        simp only [List.nil_append] at hA
        cases name with
        | none =>
          left
          have hc := cleanup_steps P I.2.1 G.2.1 C.2.1 C.2.2
          obtain ⟨T, hT, hTall⟩ := hc.log
          refine ⟨rfl, rfl, A, T, ?_, hAall, hTall, ⟨_, hA ▸ hgmem2⟩, ⟨hcc, hA ▸ hccmem⟩,
            ⟨hr_ci, hA ▸ hcoinit3⟩, ⟨hr_cp, hA ▸ hcopol3⟩⟩
          show (cleanup P I.2.1 G.2.1 C.2.1 C.2.2).log = A ++ T
          rw [hT, hA]
        | some nm =>
          right
          simp only []
          have hc := cleanup_steps P I.2.1 G.2.1 C.2.1
            (invoke P (Call.Add (populateRule nm action direction protocol localAddresses
              localPorts remoteAddresses remotePorts)) C.2.2).2
          obtain ⟨T, hT, hTall⟩ := hc.log
          refine ⟨nm, A, T, (invoke P (Call.Add (populateRule nm action direction protocol
            localAddresses localPorts remoteAddresses remotePorts)) C.2.2).1,
            rfl, ?_, hAall, hTall, ?_, C.2.2, rfl, ?_⟩
          · split_ifs
            all_goals (simp only []; rw [hT, invoke_log, hA]; simp)
          · split_ifs <;> rfl
          · split_ifs <;> exact hc

/-! ## The loop of `DeleteRule` -/

theorem retAfter_append (ret : HRESULT) (l1 l2 : List (Call × HRESULT)) :
    retAfter ret (l1 ++ l2) = retAfter (retAfter ret l1) l2 := by
  simp [retAfter, List.foldl_append]

theorem retAfter_of_no_remove (ret : HRESULT) (l : List (Call × HRESULT))
    (h : ∀ e ∈ l, e.1.isRemove = false) : retAfter ret l = ret := by
  induction l generalizing ret with
  | nil => rfl
  | cons e l ih =>
    have he : e.1.isRemove = false := h e (List.mem_cons_self _ _)
    have hl : ∀ x ∈ l, x.1.isRemove = false := fun x hx => h x (List.mem_cons_of_mem _ hx)
    simp only [retAfter, List.foldl_cons, he, Bool.false_and] at ih ⊢
    exact ih ret hl

/-- Declarative reading of `retAfter`: either no `Remove` of the log failed and
`ret` is unchanged, or the result is the code of a failed `Remove` after which
no `Remove` failed. -/
theorem retAfter_spec (ret : HRESULT) (l : List (Call × HRESULT)) :
    (retAfter ret l = ret ∧ ∀ e ∈ l, e.1.isRemove = true → FAILED e.2 = false) ∨
    (∃ pre post c, l = pre ++ (c, retAfter ret l) :: post ∧ c.isRemove = true ∧
      FAILED (retAfter ret l) = true ∧ ∀ e ∈ post, e.1.isRemove = true → FAILED e.2 = false) := by
  induction l using List.reverseRecOn with
  | nil => exact Or.inl ⟨rfl, by simp⟩
  | append_singleton l e ih =>
    rw [retAfter_append]
    have hsingle : retAfter (retAfter ret l) [e] =
        if (e.1.isRemove && FAILED e.2) = true then e.2 else retAfter ret l := rfl
    by_cases he : (e.1.isRemove && FAILED e.2) = true
    · right
      have hval : retAfter (retAfter ret l) [e] = e.2 := by
        rw [hsingle, if_pos he]
      rw [hval]
      simp only [Bool.and_eq_true] at he
      exact ⟨l, [], e.1, rfl, he.1, he.2, by simp⟩
    · have hval : retAfter (retAfter ret l) [e] = retAfter ret l := by
        rw [hsingle, if_neg he]
      rw [hval]
      have he2 : e.1.isRemove = true → FAILED e.2 = false := by
        intro h1
        simpa [h1] using he
      rcases ih with ⟨h1, h2⟩ | ⟨pre, post, c, h1, h2, h3, h4⟩
      · left
        refine ⟨h1, ?_⟩
        intro x hx
        rcases List.mem_append.mp hx with hx1 | hx1
        · exact h2 x hx1
        · simp at hx1
          subst hx1
          exact he2
      · right
        refine ⟨pre, post ++ [e], c, ?_, h2, h3, ?_⟩
        · conv_lhs => rw [h1]
          simp
        · intro x hx
          rcases List.mem_append.mp hx with hx1 | hx1
          · exact h4 x hx1
          · simp at hx1
            subst hx1
            exact he2

theorem DeleteRule.loop_zero (P : Platform σ) (n : BSTR) (ret : HRESULT) (pRule : Option Obj)
    (w : World σ) : DeleteRule.loop P n 0 ret pRule w = (none, w) := rfl

theorem DeleteRule.loop_succ (P : Platform σ) (n : BSTR) (k : Nat) (ret : HRESULT)
    (pRule : Option Obj) (w : World σ) :
    DeleteRule.loop P n (k + 1) ret pRule w =
      if (checkRule P pRule n w).1 ≠ 0 then
        DeleteRule.loop P n k
          (if FAILED (invoke P (Call.Remove n) (checkRule P pRule n w).2.2).1
            then (invoke P (Call.Remove n) (checkRule P pRule n w).2.2).1 else ret)
          (checkRule P pRule n w).2.1 (invoke P (Call.Remove n) (checkRule P pRule n w).2.2).2
      else (some ((checkRule P pRule n w).1, ret, (checkRule P pRule n w).2.1),
        (checkRule P pRule n w).2.2) := rfl

/-- The loop issues lookups and removals on the name only. -/
theorem DeleteRule.loop_steps (P : Platform σ) (n : BSTR) (fuel : Nat) :
    ∀ (ret : HRESULT) (pRule : Option Obj) (w : World σ),
      Steps P (fun e => e.1 = Call.Item n ∨ e.1 = Call.Remove n) w
        (DeleteRule.loop P n fuel ret pRule w).2 := by
  induction fuel with
  | zero => intro ret pRule w; exact Steps.refl _
  | succ k ih =>
    intro ret pRule w
    rw [DeleteRule.loop_succ]
    by_cases h : (checkRule P pRule n w).1 ≠ 0
    · rw [if_pos h]
      refine Steps.trans ?_ (ih _ _ _)
      rw [checkRule_world]
      exact Steps.tail _ (Steps.tail _ (Steps.refl _) (Or.inl rfl)) (Or.inr rfl)
    · rw [if_neg h, checkRule_world]
      exact Steps.tail _ (Steps.refl _) (Or.inl rfl)

/-- When the loop is left, `exists` is `0`: the last call of the log is an
`Item` answered with the not-found code, and `ret` is the value `retAfter`
computes from the calls the loop made. -/
theorem DeleteRule.loop_exit (P : Platform σ) (n : BSTR) (fuel : Nat) :
    ∀ (ret : HRESULT) (pRule : Option Obj) (w : World σ) (ex : DWORD) (ret2 : HRESULT)
      (pRule2 : Option Obj) (w2 : World σ),
      DeleteRule.loop P n fuel ret pRule w = (some (ex, ret2, pRule2), w2) →
      ex = 0 ∧ ∃ ext, w2.log = w.log ++ ext ++ [(Call.Item n, HRESULT_FROM_WIN32 ERROR_FILE_NOT_FOUND)] ∧
        ret2 = retAfter ret ext ∧ (∀ e ∈ ext, e.1 = Call.Item n ∨ e.1 = Call.Remove n) ∧
        (∀ e ∈ ext, e.1 = Call.Item n → e.2 ≠ HRESULT_FROM_WIN32 ERROR_FILE_NOT_FOUND) := by
  induction fuel with
  | zero =>
    intro ret pRule w ex ret2 pRule2 w2 h
    simp [DeleteRule.loop] at h
  | succ k ih =>
    intro ret pRule w ex ret2 pRule2 w2 h
    rw [DeleteRule.loop_succ] at h
    by_cases hc : (checkRule P pRule n w).1 ≠ 0
    · rw [if_pos hc] at h
      obtain ⟨hex, ext, hlog, hret, hcalls, hnf⟩ := ih _ _ _ _ _ _ _ h
      refine ⟨hex, (Call.Item n, (invoke P (Call.Item n) w).1) ::
        (Call.Remove n, (invoke P (Call.Remove n) (checkRule P pRule n w).2.2).1) :: ext, ?_, ?_, ?_, ?_⟩
      · rw [hlog, invoke_log, checkRule_world, invoke_log]
        simp
      · rw [hret]
        simp [retAfter, Call.isItem, Call.isRemove]
      · intro e he
        simp only [List.mem_cons] at he
        rcases he with he | he | he
        · exact Or.inl (by rw [he])
        · exact Or.inr (by rw [he])
        · exact hcalls e he
      · intro e he h1
        simp only [List.mem_cons] at he
        rcases he with he | he | he
        · subst he
          intro h2
          apply hc
          rw [checkRule_fst, lookupResult_eq_zero]
          exact h2
        · subst he
          simp at h1
        · exact hnf e he h1
    · rw [if_neg hc] at h
      simp only [Prod.mk.injEq, Option.some.injEq] at h
      obtain ⟨⟨h1, h2, _⟩, h4⟩ := h
      have h0 : (checkRule P pRule n w).1 = 0 := by simpa using hc
      refine ⟨by rw [← h1]; exact h0, [], ?_, ?_, by simp, by simp⟩
      · rw [← h4, checkRule_world, invoke_log]
        rw [checkRule_fst, lookupResult_eq_zero] at h0
        simp [h0]
      · rw [← h2]; rfl

/-- The three shapes of a run of `DeleteRule`: an acquisition failed and its
code is returned; or the fuel ran out inside the loop; or the log is
successful acquisitions, the calls of the loop (lookups not answered with the
not-found code, each followed by a `Remove`), the lookup answered with the
not-found code, then cleanup calls, and the result is the value of `ret`. -/
theorem DeleteRule_shape (P : Platform σ) (fuel : Nat) (name : BSTR) (s : σ) :
    (∃ hr, (DeleteRule P fuel name s).1 = some hr ∧ FAILED hr = true ∧
      (∀ e ∈ (DeleteRule P fuel name s).2.log, e.1.isAcquire = true ∨ e.1.isTeardown = true) ∧
      ∃ e ∈ (DeleteRule P fuel name s).2.log, e.1.isAcquire = true ∧ FAILED e.2 = true) ∨
    (DeleteRule P fuel name s).1 = none ∨
    (∃ A ext T, (DeleteRule P fuel name s).2.log =
        A ++ ext ++ (Call.Item name, HRESULT_FROM_WIN32 ERROR_FILE_NOT_FOUND) :: T ∧
      (∀ e ∈ A, e.1.isAcquire = true ∧ FAILED e.2 = false) ∧
      (∀ e ∈ ext, e.1 = Call.Item name ∨ e.1 = Call.Remove name) ∧
      (∀ e ∈ ext, e.1 = Call.Item name → e.2 ≠ HRESULT_FROM_WIN32 ERROR_FILE_NOT_FOUND) ∧
      (∀ e ∈ T, e.1.isTeardown = true) ∧
      (DeleteRule P fuel name s).1 = some (retAfter S_OK ext)) := by
  unfold DeleteRule
  simp only []
  have hi := initializeFirewallPolicy_steps P { st := s, log := [] }
  by_cases h1 : FAILED (initializeFirewallPolicy P { st := s, log := [] }).1 = true
  · rw [if_pos h1]
    left
    obtain ⟨_, e, he, hacq, hf⟩ := initializeFirewallPolicy_fail P _ h1
    have hc := cleanup_steps P (initializeFirewallPolicy P { st := s, log := [] }).2.1 none none
      (initializeFirewallPolicy P { st := s, log := [] }).2.2
    refine ⟨_, rfl, h1, ?_, e, hc.mem he, hacq, hf⟩
    exact ((hi.mono (fun _ h => Or.inl h)).trans (hc.mono (fun _ h => Or.inr h))).all rfl
  · rw [if_neg h1]
    simp only [Bool.not_eq_true] at h1
    obtain ⟨_, _, hi2⟩ := initializeFirewallPolicy_ok P _ h1
    have hg := get_Rules_steps P (initializeFirewallPolicy P { st := s, log := [] }).2.2
    by_cases h2 : FAILED (get_Rules P (initializeFirewallPolicy P { st := s, log := [] }).2.2).1 = true
    · rw [if_pos h2]
      left
      obtain ⟨_, e, he, hacq, hf⟩ := get_Rules_fail P _ h2
      have hc := cleanup_steps P (initializeFirewallPolicy P { st := s, log := [] }).2.1
        (get_Rules P (initializeFirewallPolicy P { st := s, log := [] }).2.2).2.1 none
        (get_Rules P (initializeFirewallPolicy P { st := s, log := [] }).2.2).2.2
      refine ⟨_, rfl, h2, ?_, e, hc.mem he, hacq, hf⟩
      exact (((hi.trans hg).mono (fun _ h => Or.inl h)).trans
        (hc.mono (fun _ h => Or.inr h))).all rfl
    · rw [if_neg h2]
      simp only [Bool.not_eq_true] at h2
      right
      obtain ⟨_, hg2⟩ := get_Rules_ok P _ h2
      obtain ⟨A, hA, hAall⟩ := (hi2.trans hg2).log
      simp only [List.nil_append] at hA
      generalize hL : DeleteRule.loop P name fuel S_OK none
        (get_Rules P (initializeFirewallPolicy P { st := s, log := [] }).2.2).2.2 = L
      rcases L with ⟨_ | ⟨ex, ret, pRule⟩, w⟩
      · left
        rfl
      · right
        obtain ⟨hex, ext, hlog, hret, hcalls, hnf⟩ := DeleteRule.loop_exit P name fuel _ _ _ _ _ _ _ hL
        have hc := cleanup_steps P (initializeFirewallPolicy P { st := s, log := [] }).2.1
          (get_Rules P (initializeFirewallPolicy P { st := s, log := [] }).2.2).2.1 pRule w
        obtain ⟨T, hT, hTall⟩ := hc.log
        have hne : ¬ ex = toDWORD (-1) := by
          rw [hex]
          decide
        refine ⟨A, ext, T, ?_, hAall, hcalls, hnf, hTall, ?_⟩
        · simp only [if_neg hne]
          rw [hT, hlog, hA]
          simp
        · simp only [if_neg hne]
          rw [hret]

/-- On a platform whose acquisition calls never fail,
`initializeFirewallPolicy` succeeds. -/
theorem initializeFirewallPolicy_of_acquire_ok (P : Platform σ)
    (h : ∀ c s, c.isAcquire = true → FAILED (P.respond c s).1 = false) (w : World σ) :
    FAILED (initializeFirewallPolicy P w).1 = false := by
  unfold initializeFirewallPolicy
  simp only []
  split_ifs
  all_goals first | exact FAILED_S_OK | exact h _ _ rfl

theorem initializeFirewallRule_of_acquire_ok (P : Platform σ)
    (h : ∀ c s, c.isAcquire = true → FAILED (P.respond c s).1 = false) (w : World σ) :
    FAILED (initializeFirewallRule P w).1 = false := by
  unfold initializeFirewallRule
  simp only []
  split_ifs
  all_goals first | exact FAILED_S_OK | exact h _ _ rfl

theorem get_Rules_of_acquire_ok (P : Platform σ)
    (h : ∀ c s, c.isAcquire = true → FAILED (P.respond c s).1 = false) (w : World σ) :
    FAILED (get_Rules P w).1 = false :=
  h _ _ rfl

theorem countP_of_steps {P : Platform σ} {q : Call × HRESULT → Prop} {w1 w2 : World σ}
    (h : Steps P q w1 w2) (f : Call × HRESULT → Bool) (hq : ∀ e, q e → f e = false) :
    w2.log.countP f = w1.log.countP f := by
  obtain ⟨ext, hext, hall⟩ := h.log
  rw [hext, List.countP_append]
  have : ext.countP f = 0 := by
    rw [List.countP_eq_zero]
    intro e he
    simp [hq e (hall e he)]
  omega

/-- While no lookup of the name is answered with the not-found code, the loop
does not end: with fuel `k` it makes `k` lookups and `k` removals and runs out
of fuel. -/
theorem DeleteRule.loop_no_exit (P : Platform σ) (n : BSTR)
    (hnf : ∀ s, (P.respond (Call.Item n) s).1 ≠ HRESULT_FROM_WIN32 ERROR_FILE_NOT_FOUND)
    (fuel : Nat) :
    ∀ (ret : HRESULT) (pRule : Option Obj) (w : World σ),
      (DeleteRule.loop P n fuel ret pRule w).1 = none ∧
      removeCount (DeleteRule.loop P n fuel ret pRule w).2.log = removeCount w.log + fuel ∧
      lookupCount (DeleteRule.loop P n fuel ret pRule w).2.log = lookupCount w.log + fuel := by
  induction fuel with
  | zero => intro ret pRule w; exact ⟨rfl, rfl, rfl⟩
  | succ k ih =>
    intro ret pRule w
    have hc : (checkRule P pRule n w).1 ≠ 0 := by
      rw [checkRule_fst]
      intro h0
      exact hnf w.st ((lookupResult_eq_zero _).mp h0)
    rw [DeleteRule.loop_succ, if_pos hc]
    obtain ⟨h1, h2, h3⟩ := ih (if FAILED (invoke P (Call.Remove n) (checkRule P pRule n w).2.2).1
      then (invoke P (Call.Remove n) (checkRule P pRule n w).2.2).1 else ret)
      (checkRule P pRule n w).2.1 (invoke P (Call.Remove n) (checkRule P pRule n w).2.2).2
    refine ⟨h1, ?_, ?_⟩
    · rw [h2, invoke_log, checkRule_world, invoke_log]
      simp [removeCount, List.countP_append, Call.isRemove]
      omega
    · rw [h3, invoke_log, checkRule_world, invoke_log]
      simp [lookupCount, List.countP_append, Call.isItem]
      omega

/-- Every `Remove` entry the loop adds to the log is the answer of the platform
to `Remove` of the name in some state. -/
theorem DeleteRule.loop_genuine (P : Platform σ) (n : BSTR) (fuel : Nat) :
    ∀ (ret : HRESULT) (pRule : Option Obj) (w : World σ),
      Steps P (fun e => e.1.isRemove = false ∨
          ∃ s2, e = (Call.Remove n, (P.respond (Call.Remove n) s2).1)) w
        (DeleteRule.loop P n fuel ret pRule w).2 := by
  induction fuel with
  | zero => intro ret pRule w; exact Steps.refl _
  | succ k ih =>
    intro ret pRule w
    rw [DeleteRule.loop_succ]
    by_cases h : (checkRule P pRule n w).1 ≠ 0
    · rw [if_pos h]
      refine Steps.trans ?_ (ih _ _ _)
      rw [checkRule_world]
      exact Steps.tail (Call.Remove n) (Steps.tail (Call.Item n) (Steps.refl _) (Or.inl rfl))
        (Or.inr ⟨_, rfl⟩)
    · rw [if_neg h, checkRule_world]
      exact Steps.tail (Call.Item n) (Steps.refl _) (Or.inl rfl)

/-- While every lookup of the name succeeds, each of the `k` lookups the loop
makes with fuel `k` finds a rule. -/
theorem DeleteRule.loop_found (P : Platform σ) (n : BSTR)
    (hfound : ∀ s, FAILED (P.respond (Call.Item n) s).1 = false) (fuel : Nat) :
    ∀ (ret : HRESULT) (pRule : Option Obj) (w : World σ),
      foundCount (DeleteRule.loop P n fuel ret pRule w).2.log = foundCount w.log + fuel := by
  induction fuel with
  | zero => intro ret pRule w; rfl
  | succ k ih =>
    intro ret pRule w
    have hc : (checkRule P pRule n w).1 ≠ 0 := by
      rw [checkRule_fst, invoke_fst, lookupResult_of_ok _ (hfound w.st)]
      decide
    rw [DeleteRule.loop_succ, if_pos hc, ih, invoke_log, checkRule_world, invoke_log]
    have h1 : FAILED (invoke P (Call.Item n) w).1 = false := hfound w.st
    simp [foundCount, List.countP_append, Call.isItem, h1]
    omega

/-- On a platform whose acquisition calls never fail and whose lookups of the
name are never answered with the not-found code, `DeleteRule` with fuel `B`
makes `B` lookups and `B` removals and does not return. -/
theorem DeleteRule_no_exit (P : Platform σ) (name : BSTR)
    (hacq : ∀ c s, c.isAcquire = true → FAILED (P.respond c s).1 = false)
    (hnf : ∀ s, (P.respond (Call.Item name) s).1 ≠ HRESULT_FROM_WIN32 ERROR_FILE_NOT_FOUND)
    (s : σ) (B : Nat) :
    (DeleteRule P B name s).1 = none ∧
    removeCount (DeleteRule P B name s).2.log = B ∧
    lookupCount (DeleteRule P B name s).2.log = B := by
  have h1 := initializeFirewallPolicy_of_acquire_ok P hacq { st := s, log := [] }
  have h2 := get_Rules_of_acquire_ok P hacq (initializeFirewallPolicy P { st := s, log := [] }).2.2
  have hst := (initializeFirewallPolicy_steps P { st := s, log := [] }).trans
    (get_Rules_steps P (initializeFirewallPolicy P { st := s, log := [] }).2.2)
  have hr := countP_of_steps hst (fun e => e.1.isRemove) (fun e he => (Call.of_isAcquire he).2.2.1)
  have hl := countP_of_steps hst (fun e => e.1.isItem) (fun e he => (Call.of_isAcquire he).1)
  obtain ⟨l1, l2, l3⟩ := DeleteRule.loop_no_exit P name hnf B S_OK none
    (get_Rules P (initializeFirewallPolicy P { st := s, log := [] }).2.2).2.2
  unfold DeleteRule
  simp only [h1, h2, Bool.false_eq_true, if_false]
  generalize hL : DeleteRule.loop P name B S_OK none
    (get_Rules P (initializeFirewallPolicy P { st := s, log := [] }).2.2).2.2 = L at l1 l2 l3
  rcases L with ⟨_ | x, w⟩
  · refine ⟨rfl, ?_, ?_⟩
    · show removeCount w.log = B
      rw [l2]
      unfold removeCount
      rw [hr]
      simp
    · show lookupCount w.log = B
      rw [l3]
      unfold lookupCount
      rw [hl]
      simp
  · simp at l1

/-! ## Runs on a platform that satisfies `StoreModel` -/

/-- Calls other than `Add` and `Remove` leave the counts unchanged. -/
theorem StoreModel.cnt_of_steps {P : Platform σ} {cnt : BSTR → σ → Nat} (hS : StoreModel P cnt)
    {w1 w2 : World σ} (h : Steps P (fun e => e.1.isAdd = false ∧ e.1.isRemove = false) w1 w2)
    (n : BSTR) : cnt n w2.st = cnt n w1.st :=
  h.inv (fun s => cnt n s = cnt n w1.st)
    (fun c s hq hs => (hS.frame c s n hq.1 hq.2).trans hs) rfl

/-- The world in which the loop of `DeleteRule` and the lookup of `RuleExists`
start: after `initializeFirewallPolicy` and `get_Rules`. -/
theorem StoreModel.prologue {P : Platform σ} {cnt : BSTR → σ → Nat} (hS : StoreModel P cnt)
    (s : σ) :
    FAILED (initializeFirewallPolicy P { st := s, log := [] }).1 = false ∧
    FAILED (get_Rules P (initializeFirewallPolicy P { st := s, log := [] }).2.2).1 = false ∧
    (∀ n, cnt n (get_Rules P (initializeFirewallPolicy P { st := s, log := [] }).2.2).2.2.st
      = cnt n s) ∧
    removeCount (get_Rules P (initializeFirewallPolicy P { st := s, log := [] }).2.2).2.2.log
      = 0 := by
  have hst := (initializeFirewallPolicy_steps P { st := s, log := [] }).trans
    (get_Rules_steps P (initializeFirewallPolicy P { st := s, log := [] }).2.2)
  refine ⟨initializeFirewallPolicy_of_acquire_ok P hS.acquire_ok _,
    get_Rules_of_acquire_ok P hS.acquire_ok _, ?_, ?_⟩
  · intro n
    exact hS.cnt_of_steps (hst.mono (fun e he =>
      ⟨(Call.of_isAcquire he).2.1, (Call.of_isAcquire he).2.2.1⟩)) n
  · exact countP_of_steps hst (fun e => e.1.isRemove) (fun e he => (Call.of_isAcquire he).2.2.1)

/-- On a platform satisfying `StoreModel`, `RuleExists` returns `0` on a name
without rule and `1` on a name with a rule. -/
theorem StoreModel.RuleExists_eq {P : Platform σ} {cnt : BSTR → σ → Nat} (hS : StoreModel P cnt)
    (name : BSTR) (s : σ) :
    (RuleExists P name s).1 = if cnt name s = 0 then 0 else 1 := by
  obtain ⟨h1, h2, h3, _⟩ := hS.prologue s
  unfold RuleExists
  simp only [h1, h2, Bool.false_eq_true, if_false]
  rw [checkRule_fst, invoke_fst]
  by_cases h0 : cnt name s = 0
  · rw [if_pos h0, hS.item_absent name _ (by rw [h3]; exact h0)]
    decide
  · rw [if_neg h0]
    exact lookupResult_of_ok _ (hS.item_found name _ (by rw [h3]; omega))

/-- On a platform satisfying `StoreModel` where each `Remove` of the name
succeeds and removes one rule of that name, the loop started with `N` rules of
the name and more than `N` fuel is left after `N` removals, with `ret`
unchanged and no rule of the name left. -/
theorem StoreModel.loop_removes_all {P : Platform σ} {cnt : BSTR → σ → Nat}
    (hS : StoreModel P cnt) (name : BSTR)
    (hrem : ∀ s, 0 < cnt name s → FAILED (P.respond (Call.Remove name) s).1 = false ∧
      cnt name (P.respond (Call.Remove name) s).2 + 1 = cnt name s) (N : Nat) :
    ∀ (fuel : Nat) (ret : HRESULT) (pRule : Option Obj) (w : World σ),
      cnt name w.st = N → N < fuel →
      (∃ pRule2, (DeleteRule.loop P name fuel ret pRule w).1 = some (0, ret, pRule2)) ∧
      cnt name (DeleteRule.loop P name fuel ret pRule w).2.st = 0 ∧
      removeCount (DeleteRule.loop P name fuel ret pRule w).2.log = removeCount w.log + N := by
  induction N with
  | zero =>
    intro fuel ret pRule w hN hfuel
    obtain ⟨k, rfl⟩ : ∃ k, fuel = k + 1 := ⟨fuel - 1, by omega⟩
    have hitem := hS.item_absent name w.st hN
    have hc : ¬ (checkRule P pRule name w).1 ≠ 0 := by
      rw [checkRule_fst, invoke_fst, hitem]
      decide
    rw [DeleteRule.loop_succ, if_neg hc]
    refine ⟨⟨(checkRule P pRule name w).2.1, ?_⟩, ?_, ?_⟩
    · show some ((checkRule P pRule name w).1, ret, (checkRule P pRule name w).2.1) = _
      rw [not_not.mp hc]
    · show cnt name (checkRule P pRule name w).2.2.st = 0
      rw [checkRule_world, invoke_st, hS.frame (Call.Item name) _ _ rfl rfl]
      exact hN
    · show removeCount (checkRule P pRule name w).2.2.log = _
      rw [checkRule_world, invoke_log]
      simp [removeCount, List.countP_append, Call.isRemove]
  | succ N ih =>
    intro fuel ret pRule w hN hfuel
    obtain ⟨k, rfl⟩ : ∃ k, fuel = k + 1 := ⟨fuel - 1, by omega⟩
    have hitem := hS.item_found name w.st (by omega)
    have hc : (checkRule P pRule name w).1 ≠ 0 := by
      rw [checkRule_fst, invoke_fst, lookupResult_of_ok _ hitem]
      decide
    have hcnt : cnt name (checkRule P pRule name w).2.2.st = N + 1 := by
      rw [checkRule_world, invoke_st, hS.frame (Call.Item name) _ _ rfl rfl]
      exact hN
    obtain ⟨hok, hdec⟩ := hrem (checkRule P pRule name w).2.2.st (by omega)
    have hok2 : FAILED (invoke P (Call.Remove name) (checkRule P pRule name w).2.2).1 = false := hok
    rw [DeleteRule.loop_succ, if_pos hc]
    simp only [hok2, Bool.false_eq_true, if_false]
    obtain ⟨h1, h2, h3⟩ := ih k ret (checkRule P pRule name w).2.1
      (invoke P (Call.Remove name) (checkRule P pRule name w).2.2).2
      (by rw [invoke_st]; omega) (by omega)
    refine ⟨h1, h2, ?_⟩
    rw [h3, invoke_log, checkRule_world, invoke_log]
    simp [removeCount, List.countP_append, Call.isRemove, Call.isItem]
    omega

/-! ## `listStore` satisfies `StoreModel` -/

theorem countP_eraseP_add_one {α : Type} (p : α → Bool) (l : List α) (h : l.any p = true) :
    (l.eraseP p).countP p + 1 = l.countP p := by
  induction l with
  | nil => simp at h
  | cons a l ih =>
    by_cases ha : p a = true
    · rw [List.eraseP_cons_of_pos ha, List.countP_cons_of_pos _ _ ha]
    · rw [List.eraseP_cons_of_neg ha, List.countP_cons_of_neg _ _ ha,
        List.countP_cons_of_neg _ _ ha]
      apply ih
      simpa [ha] using h

theorem listStore_Item (n : BSTR) (rules : List INetFwRule) :
    listStore.respond (Call.Item n) rules =
      if rules.any (fun r => r.Name == n) then (S_OK, rules)
      else (HRESULT_FROM_WIN32 ERROR_FILE_NOT_FOUND, rules) := rfl

theorem listStore_Remove (n : BSTR) (rules : List INetFwRule) :
    listStore.respond (Call.Remove n) rules =
      if rules.any (fun r => r.Name == n) then (S_OK, rules.eraseP (fun r => r.Name == n))
      else (HRESULT_FROM_WIN32 ERROR_FILE_NOT_FOUND, rules) := rfl

theorem listStore_any_of_pos (n : BSTR) (rules : List INetFwRule) (h : 0 < listCount n rules) :
    rules.any (fun r => r.Name == n) = true := by
  unfold listCount at h
  rw [List.countP_pos_iff] at h
  rw [List.any_eq_true]
  exact h

theorem listStore_model : StoreModel listStore listCount where
  acquire_ok := by
    intro c s h
    cases c <;> first | rfl | simp [Call.isAcquire] at h
  frame := by
    intro c s n ha hr
    cases c with
    | Item m => rw [listStore_Item]; split_ifs <;> rfl
    | Add r => simp [Call.isAdd] at ha
    | Remove m => simp [Call.isRemove] at hr
    | _ => rfl
  item_found := by
    intro n s h
    rw [listStore_Item, if_pos (listStore_any_of_pos n s h)]
    rfl
  item_absent := by
    intro n s h
    have hany : ¬ s.any (fun r => r.Name == n) = true := by
      intro hcon
      rw [List.any_eq_true] at hcon
      unfold listCount at h
      rw [List.countP_eq_zero] at h
      obtain ⟨x, hx, hp⟩ := hcon
      exact h x hx hp
    rw [listStore_Item, if_neg hany]

/-- On `listStore` each `Remove` of a name that has a rule succeeds and
removes exactly one rule of that name. -/
theorem listStore_remove_one (n : BSTR) (s : List INetFwRule) (h : 0 < listCount n s) :
    FAILED (listStore.respond (Call.Remove n) s).1 = false ∧
    listCount n (listStore.respond (Call.Remove n) s).2 + 1 = listCount n s := by
  have hany := listStore_any_of_pos n s h
  rw [listStore_Remove, if_pos hany]
  exact ⟨rfl, countP_eraseP_add_one _ s hany⟩

/-- On `listStore` each `Add` succeeds and adds one rule under the name of the
rule. -/
theorem listStore_add_one (r : INetFwRule) (s : List INetFwRule) :
    listCount r.Name (listStore.respond (Call.Add r) s).2 = listCount r.Name s + 1 := by
  show listCount r.Name (s ++ [r]) = listCount r.Name s + 1
  simp [listCount, List.countP_append]

/-! ## Claims about `DeleteRule` -/

/-- C6: for a run of `DeleteRule` that returns, with session and collection
obtained: the loop ended on a lookup answered with the not-found code; the
result is `S_OK` exactly when no `Remove` call of the run failed; and when
some `Remove` failed, the result is the code of the last `Remove` that failed
(no `Remove` after it failed). -/
theorem DeleteRule_result_is_last_failed_Remove (P : Platform σ) (fuel : Nat) (name : BSTR)
    (s : σ) (hr : HRESULT) (hrun : (DeleteRule P fuel name s).1 = some hr)
    (hacq : ∀ e ∈ (DeleteRule P fuel name s).2.log, e.1.isAcquire = true → FAILED e.2 = false) :
    (hr = S_OK ↔
      ∀ e ∈ (DeleteRule P fuel name s).2.log, e.1.isRemove = true → FAILED e.2 = false) ∧
    ((∃ e ∈ (DeleteRule P fuel name s).2.log, e.1.isRemove = true ∧ FAILED e.2 = true) →
      ∃ pre post, (DeleteRule P fuel name s).2.log = pre ++ (Call.Remove name, hr) :: post ∧
        FAILED hr = true ∧ ∀ e ∈ post, e.1.isRemove = true → FAILED e.2 = false) ∧
    (∃ pre post, (DeleteRule P fuel name s).2.log =
        pre ++ (Call.Item name, HRESULT_FROM_WIN32 ERROR_FILE_NOT_FOUND) :: post ∧
      ∀ e ∈ post, e.1.isTeardown = true) := by
  have hshape := DeleteRule_shape P fuel name s
  generalize DeleteRule P fuel name s = r at hshape hrun hacq
  rcases hshape with ⟨_, _, _, _, e, he, hea, hef⟩ | hnone | ⟨A, ext, T, hlog, hA, hcalls, _, hT, hres⟩
  · have := hacq e he hea
    rw [hef] at this
    exact absurd this (by decide)
  · rw [hnone] at hrun
    exact absurd hrun (by simp)
  · rw [hres] at hrun
    have hval : retAfter S_OK ext = hr := Option.some.inj hrun
    have hrest : ∀ e ∈ (Call.Item name, HRESULT_FROM_WIN32 ERROR_FILE_NOT_FOUND) :: T,
        e.1.isRemove = true → FAILED e.2 = false := by
      intro e he hrem
      rcases List.mem_cons.mp he with h1 | h1
      · subst h1
        simp [Call.isRemove] at hrem
      · have := (Call.of_isTeardown (hT e h1)).2.2.1
        rw [hrem] at this
        exact absurd this (by decide)
    have hAno : ∀ e ∈ A, e.1.isRemove = true → FAILED e.2 = false := fun e he _ => (hA e he).2
    refine ⟨?_, ?_, ⟨A ++ ext, T, by rw [hlog], hT⟩⟩
    · rcases retAfter_spec S_OK ext with ⟨h1, h2⟩ | ⟨pre, post, c, h1, h2, h3, _⟩
      · rw [hval] at h1
        refine ⟨fun _ => ?_, fun _ => h1⟩
        intro e he
        rw [hlog] at he
        rcases List.mem_append.mp he with h3 | h3
        · rcases List.mem_append.mp h3 with h4 | h4
          · exact hAno e h4
          · exact h2 e h4
        · exact hrest e h3
      · rw [hval] at h1 h3
        constructor
        · intro h0
          rw [h0] at h3
          exact absurd h3 (by decide)
        · intro hall
          have hmem : (c, hr) ∈ r.2.log := by
            rw [hlog, h1]
            simp
          have := hall _ hmem h2
          rw [h3] at this
          exact absurd this (by decide)
    · rintro ⟨e, he, hrem, hf⟩
      rcases retAfter_spec S_OK ext with ⟨_, h2⟩ | ⟨pre, post, c, h1, h2, h3, h4⟩
      · exfalso
        rw [hlog] at he
        have : FAILED e.2 = false := by
          rcases List.mem_append.mp he with h3 | h3
          · rcases List.mem_append.mp h3 with h4 | h4
            · exact hAno e h4 hrem
            · exact h2 e h4 hrem
          · exact hrest e h3 hrem
        rw [hf] at this
        exact absurd this (by decide)
      · rw [hval] at h1 h3
        have hc : c = Call.Remove name := by
          have hmem : (c, hr) ∈ ext := by
            rw [h1]
            simp
          rcases hcalls _ hmem with h5 | h5
          · simp only at h5
            rw [h5] at h2
            simp [Call.isRemove] at h2
          · exact h5
        subst hc
        refine ⟨A ++ pre, post ++ (Call.Item name, HRESULT_FROM_WIN32 ERROR_FILE_NOT_FOUND) :: T,
          ?_, h3, ?_⟩
        · rw [hlog]
          conv_lhs => rw [h1]
          simp
        · intro e he
          rcases List.mem_append.mp he with h5 | h5
          · exact h4 e h5
          · exact hrest e h5

/-- Witness for C6 on `grudgingStore` holding two rules: the first `Remove`
fails with `E_ACCESSDENIED`, the next two succeed, and the result is
`E_ACCESSDENIED`. -/
theorem DeleteRule_result_is_last_failed_Remove_witness :
    (DeleteRule grudgingStore 4 (some "web") (2, 0)).1 = some E_ACCESSDENIED ∧
    removeCount (DeleteRule grudgingStore 4 (some "web") (2, 0)).2.log = 3 ∧
    ((E_ACCESSDENIED = S_OK ↔
      ∀ e ∈ (DeleteRule grudgingStore 4 (some "web") (2, 0)).2.log,
        e.1.isRemove = true → FAILED e.2 = false) ∧
    ((∃ e ∈ (DeleteRule grudgingStore 4 (some "web") (2, 0)).2.log,
        e.1.isRemove = true ∧ FAILED e.2 = true) →
      ∃ pre post, (DeleteRule grudgingStore 4 (some "web") (2, 0)).2.log =
          pre ++ (Call.Remove (some "web"), E_ACCESSDENIED) :: post ∧
        FAILED E_ACCESSDENIED = true ∧ ∀ e ∈ post, e.1.isRemove = true → FAILED e.2 = false) ∧
    (∃ pre post, (DeleteRule grudgingStore 4 (some "web") (2, 0)).2.log =
        pre ++ (Call.Item (some "web"), HRESULT_FROM_WIN32 ERROR_FILE_NOT_FOUND) :: post ∧
      ∀ e ∈ post, e.1.isTeardown = true)) :=
  ⟨by decide, by decide,
    DeleteRule_result_is_last_failed_Remove grudgingStore 4 (some "web") (2, 0) E_ACCESSDENIED
      (by decide) (by decide)⟩

/-- C8 refuted on `stubbornStore` (every lookup finds the rule, every `Remove`
fails): `DeleteRule` never returns, whatever the fuel, and no number bounds its
`Remove` attempts. -/
theorem DeleteRule_unbounded_on_stubbornStore :
    (∀ fuel, (DeleteRule stubbornStore fuel (some "web") ()).1 = none) ∧
    ¬ ∃ B, ∀ fuel, removeCount (DeleteRule stubbornStore fuel (some "web") ()).2.log ≤ B := by
  have hacq : ∀ c s, c.isAcquire = true → FAILED (stubbornStore.respond c s).1 = false := by
    intro c s h
    cases c <;> first | rfl | simp [Call.isAcquire] at h
  have hnf : ∀ s, (stubbornStore.respond (Call.Item (some "web")) s).1 ≠
      HRESULT_FROM_WIN32 ERROR_FILE_NOT_FOUND := by
    intro s
    show S_OK ≠ HRESULT_FROM_WIN32 ERROR_FILE_NOT_FOUND
    decide
  refine ⟨fun fuel => (DeleteRule_no_exit stubbornStore _ hacq hnf () fuel).1, ?_⟩
  rintro ⟨B, hB⟩
  have h1 := hB (B + 1)
  rw [(DeleteRule_no_exit stubbornStore _ hacq hnf () (B + 1)).2.1] at h1
  omega

/-- C8 as amended: `DeleteRule` does not bound its retries.  On every platform
whose acquisition calls succeed and on which the lookup of the name keeps
finding a rule while every `Remove` of the name fails, for every `B` the run
with fuel `B` has made `B` lookups, all of which found a rule, and `B` `Remove`
calls, all of which failed, and has not returned. -/
theorem DeleteRule_retries_without_bound (P : Platform σ) (name : BSTR)
    (hacq : ∀ c s, c.isAcquire = true → FAILED (P.respond c s).1 = false)
    (hfound : ∀ s, FAILED (P.respond (Call.Item name) s).1 = false)
    (hremove : ∀ s, FAILED (P.respond (Call.Remove name) s).1 = true)
    (s : σ) (B : Nat) :
    (DeleteRule P B name s).1 = none ∧
    removeCount (DeleteRule P B name s).2.log = B ∧
    lookupCount (DeleteRule P B name s).2.log = B ∧
    foundCount (DeleteRule P B name s).2.log = B ∧
    (∀ e ∈ (DeleteRule P B name s).2.log, e.1.isRemove = true → FAILED e.2 = true) := by
  have hnf : ∀ s, (P.respond (Call.Item name) s).1 ≠ HRESULT_FROM_WIN32 ERROR_FILE_NOT_FOUND := by
    intro s2 h
    have := hfound s2
    rw [h] at this
    exact absurd this (by decide)
  obtain ⟨n1, n2, n3⟩ := DeleteRule_no_exit P name hacq hnf s B
  refine ⟨n1, n2, n3, ?_, ?_⟩
  · have h1 := initializeFirewallPolicy_of_acquire_ok P hacq { st := s, log := [] }
    have h2 := get_Rules_of_acquire_ok P hacq
      (initializeFirewallPolicy P { st := s, log := [] }).2.2
    have hst := (initializeFirewallPolicy_steps P { st := s, log := [] }).trans
      (get_Rules_steps P (initializeFirewallPolicy P { st := s, log := [] }).2.2)
    have hf := countP_of_steps hst (fun e => e.1.isItem && !FAILED e.2)
      (fun e he => by simp [(Call.of_isAcquire he).1])
    have l1 := DeleteRule.loop_found P name hfound B S_OK none
      (get_Rules P (initializeFirewallPolicy P { st := s, log := [] }).2.2).2.2
    have l0 := (DeleteRule.loop_no_exit P name hnf B S_OK none
      (get_Rules P (initializeFirewallPolicy P { st := s, log := [] }).2.2).2.2).1
    unfold DeleteRule
    simp only [h1, h2, Bool.false_eq_true, if_false]
    generalize hL : DeleteRule.loop P name B S_OK none
      (get_Rules P (initializeFirewallPolicy P { st := s, log := [] }).2.2).2.2 = L at l0 l1
    rcases L with ⟨_ | x, w⟩
    · show foundCount w.log = B
      rw [l1]
      unfold foundCount
      rw [hf]
      simp
    · simp at l0
  · have h1 := initializeFirewallPolicy_of_acquire_ok P hacq { st := s, log := [] }
    have h2 := get_Rules_of_acquire_ok P hacq
      (initializeFirewallPolicy P { st := s, log := [] }).2.2
    have hst := ((initializeFirewallPolicy_steps P { st := s, log := [] }).trans
      (get_Rules_steps P (initializeFirewallPolicy P { st := s, log := [] }).2.2))
    have hloop := DeleteRule.loop_genuine P name B S_OK none
      (get_Rules P (initializeFirewallPolicy P { st := s, log := [] }).2.2).2.2
    have l0 := (DeleteRule.loop_no_exit P name hnf B S_OK none
      (get_Rules P (initializeFirewallPolicy P { st := s, log := [] }).2.2).2.2).1
    have hall := ((hst.mono (fun e he => (Or.inl (Call.of_isAcquire he).2.2.1 :
        e.1.isRemove = false ∨ ∃ s2, e = (Call.Remove name, (P.respond (Call.Remove name) s2).1)))).trans
      (hloop.mono (fun e he => he))).all rfl
    unfold DeleteRule
    simp only [h1, h2, Bool.false_eq_true, if_false]
    generalize hL : DeleteRule.loop P name B S_OK none
      (get_Rules P (initializeFirewallPolicy P { st := s, log := [] }).2.2).2.2 = L at l0 hall
    rcases L with ⟨_ | x, w⟩
    · intro e he hrem
      rcases hall e he with h | ⟨s2, h⟩
      · rw [hrem] at h
        exact absurd h (by decide)
      · rw [h]
        exact hremove s2
    · simp at l0

/-- Witness for the amended C8 on `stubbornStore` with `B = 5`. -/
theorem DeleteRule_retries_without_bound_witness :
    (DeleteRule stubbornStore 5 (some "web") ()).1 = none ∧
    removeCount (DeleteRule stubbornStore 5 (some "web") ()).2.log = 5 ∧
    lookupCount (DeleteRule stubbornStore 5 (some "web") ()).2.log = 5 ∧
    foundCount (DeleteRule stubbornStore 5 (some "web") ()).2.log = 5 ∧
    (∀ e ∈ (DeleteRule stubbornStore 5 (some "web") ()).2.log,
      e.1.isRemove = true → FAILED e.2 = true) :=
  DeleteRule_retries_without_bound stubbornStore (some "web")
    (by intro c s h; cases c <;> first | rfl | simp [Call.isAcquire] at h)
    (by intro s; rfl) (by intro s; rfl) () 5

/-- C7, the run that contradicts it: on `flakyStore` the first lookup fails
with `E_FAIL`, yet the loop goes on: a `Remove` and a second lookup follow, and
`DeleteRule` returns `S_OK`. -/
theorem DeleteRule_continues_after_lookup_error :
    (DeleteRule flakyStore 2 (some "web") 0).1 = some S_OK ∧
    (DeleteRule flakyStore 2 (some "web") 0).2.log.filter
        (fun e => e.1.isItem || e.1.isRemove) =
      [(Call.Item (some "web"), E_FAIL), (Call.Remove (some "web"), S_OK),
       (Call.Item (some "web"), HRESULT_FROM_WIN32 ERROR_FILE_NOT_FOUND)] ∧
    (checkRule flakyStore none (some "web") { st := 0, log := [] }).1 = 4294967295 := by
  decide

/-- C9, the run that contradicts it: on `listStore` holding two rules of the
name, `DeleteRule` makes two lookups that each hand out a rule pointer and
releases one rule pointer only (three lookups and one release with three
rules). -/
theorem DeleteRule_releases_one_rule_pointer :
    foundCount (DeleteRule listStore 3 (some "web")
      [{ Name := some "web" }, { Name := some "web" }]).2.log = 2 ∧
    ruleReleaseCount (DeleteRule listStore 3 (some "web")
      [{ Name := some "web" }, { Name := some "web" }]).2.log = 1 ∧
    foundCount (DeleteRule listStore 4 (some "web")
      [{ Name := some "web" }, { Name := some "web" }, { Name := some "web" }]).2.log = 3 ∧
    ruleReleaseCount (DeleteRule listStore 4 (some "web")
      [{ Name := some "web" }, { Name := some "web" }, { Name := some "web" }]).2.log = 1 := by
  decide

/-- The loop is left only with `exists = 0`, so the test `exists == -1` that
follows it never holds and `DeleteRule` never returns `1`, on any platform. -/
theorem DeleteRule_result_ne_one (P : Platform σ) (fuel : Nat) (name : BSTR) (s : σ) :
    (DeleteRule P fuel name s).1 ≠ some 1 := by
  intro h
  rcases DeleteRule_shape P fuel name s with ⟨hr, h1, h2, _⟩ | hnone | ⟨A, ext, T, _, _, _, _, _, hres⟩
  · rw [h1] at h
    rw [Option.some.inj h] at h2
    exact absurd h2 (by decide)
  · rw [hnone] at h
    exact absurd h (by simp)
  · rw [hres] at h
    have hval : retAfter S_OK ext = 1 := Option.some.inj h
    rcases retAfter_spec S_OK ext with ⟨h1, _⟩ | ⟨_, _, _, _, _, h3, _⟩
    · rw [hval] at h1
      exact absurd h1 (by decide)
    · rw [hval] at h3
      exact absurd h3 (by decide)

/-- C1: on a reachable store whose lookups never fail with an error and where
each `Remove` of the name succeeds and removes exactly one rule of that name,
`DeleteRule` started with `N` rules of the name returns (any fuel above `N`
is enough), its result is `S_OK`, it issued exactly `N` `Remove` calls (none
when `N = 0`), no rule of the name is left, and `RuleExists` on the store it
leaves returns `0`. -/
theorem DeleteRule_removes_all (P : Platform σ) (cnt : BSTR → σ → Nat) (hS : StoreModel P cnt)
    (name : BSTR)
    (hrem : ∀ s, 0 < cnt name s → FAILED (P.respond (Call.Remove name) s).1 = false ∧
      cnt name (P.respond (Call.Remove name) s).2 + 1 = cnt name s)
    (s : σ) (fuel : Nat) (hfuel : cnt name s < fuel) :
    (DeleteRule P fuel name s).1 = some S_OK ∧
    removeCount (DeleteRule P fuel name s).2.log = cnt name s ∧
    cnt name (DeleteRule P fuel name s).2.st = 0 ∧
    (RuleExists P name (DeleteRule P fuel name s).2.st).1 = 0 := by
  obtain ⟨h1, h2, h3, h4⟩ := hS.prologue s
  obtain ⟨⟨pRule2, l1⟩, l2, l3⟩ := hS.loop_removes_all name hrem (cnt name s) fuel S_OK none
    (get_Rules P (initializeFirewallPolicy P { st := s, log := [] }).2.2).2.2 (h3 name) hfuel
  have hmain : (DeleteRule P fuel name s).1 = some S_OK ∧
      removeCount (DeleteRule P fuel name s).2.log = cnt name s ∧
      cnt name (DeleteRule P fuel name s).2.st = 0 := by
    unfold DeleteRule
    simp only [h1, h2, Bool.false_eq_true, if_false]
    generalize hL : DeleteRule.loop P name fuel S_OK none
      (get_Rules P (initializeFirewallPolicy P { st := s, log := [] }).2.2).2.2 = L at l1 l2 l3
    rcases L with ⟨_ | ⟨ex, ret, pRule⟩, w⟩
    · simp at l1
    · simp only [Option.some.injEq, Prod.mk.injEq] at l1
      obtain ⟨hex, hret, _⟩ := l1
      subst hex hret
      have hne : ¬ (0 : DWORD) = toDWORD (-1) := by decide
      simp only [if_neg hne]
      have hc := cleanup_steps P (initializeFirewallPolicy P { st := s, log := [] }).2.1
        (get_Rules P (initializeFirewallPolicy P { st := s, log := [] }).2.2).2.1 pRule w
      refine ⟨trivial, ?_, ?_⟩
      · show removeCount (cleanup P _ _ pRule w).log = _
        unfold removeCount at l3 h4 ⊢
        rw [countP_of_steps hc (fun e => e.1.isRemove) (fun e he => (Call.of_isTeardown he).2.2.1)]
        rw [l3, h4]
        simp
      · show cnt name (cleanup P _ _ pRule w).st = 0
        rw [hS.cnt_of_steps (hc.mono (fun e he =>
          ⟨(Call.of_isTeardown he).2.1, (Call.of_isTeardown he).2.2.1⟩)) name]
        exact l2
  refine ⟨hmain.1, hmain.2.1, hmain.2.2, ?_⟩
  rw [hS.RuleExists_eq name, if_pos hmain.2.2]

/-- Witness for C1 on `listStore` holding three rules named `web` and one
named `db`. -/
theorem DeleteRule_removes_all_witness :
    listCount (some "web") [{ Name := some "web" }, { Name := some "db" },
      { Name := some "web" }, { Name := some "web" }] = 3 ∧
    ((DeleteRule listStore 4 (some "web") [{ Name := some "web" }, { Name := some "db" },
      { Name := some "web" }, { Name := some "web" }]).1 = some S_OK ∧
    removeCount (DeleteRule listStore 4 (some "web") [{ Name := some "web" },
      { Name := some "db" }, { Name := some "web" }, { Name := some "web" }]).2.log =
      listCount (some "web") [{ Name := some "web" }, { Name := some "db" },
        { Name := some "web" }, { Name := some "web" }] ∧
    listCount (some "web") (DeleteRule listStore 4 (some "web") [{ Name := some "web" },
      { Name := some "db" }, { Name := some "web" }, { Name := some "web" }]).2.st = 0 ∧
    (RuleExists listStore (some "web") (DeleteRule listStore 4 (some "web")
      [{ Name := some "web" }, { Name := some "db" }, { Name := some "web" },
        { Name := some "web" }]).2.st).1 = 0) :=
  ⟨by decide,
    DeleteRule_removes_all listStore listCount listStore_model (some "web")
      (listStore_remove_one (some "web")) _ 4 (by decide)⟩

/-! ## Claims about `CreateRule` -/

/-- C2 refuted: on `listStore`, `CreateRule` with a `NULL` name returns `1`
only after the session was opened, the collection obtained and the rule object
constructed (eight acquisition calls are in the log); on `deadStore` it
returns the store's failure code `E_FAIL` instead of `1`; and with the empty
string as name it returns `S_OK` and the rule is inserted. -/
theorem CreateRule_empty_name_counterexample :
    ((CreateRule listStore none NET_FW_ACTION.NET_FW_ACTION_BLOCK
        NET_FW_RULE_DIRECTION.NET_FW_RULE_DIR_IN 6 none none none (some "22") []).1 = 1 ∧
      ((CreateRule listStore none NET_FW_ACTION.NET_FW_ACTION_BLOCK
        NET_FW_RULE_DIRECTION.NET_FW_RULE_DIR_IN 6 none none none (some "22") []).2.log.filter
          (fun e => e.1.isAcquire)).map Prod.fst =
        [Call.IIDFromString CLSID_NetFwPolicy2, Call.IIDFromString IID_INetFwPolicy2,
          Call.CoInitializeEx, Call.CoCreateInstance CLSID_NetFwPolicy2, Call.get_Rules,
          Call.IIDFromString CLSID_NetFwRule, Call.IIDFromString IID_INetFwRule,
          Call.CoCreateInstance CLSID_NetFwRule]) ∧
    (CreateRule deadStore none NET_FW_ACTION.NET_FW_ACTION_BLOCK
        NET_FW_RULE_DIRECTION.NET_FW_RULE_DIR_IN 6 none none none (some "22") ()).1 = E_FAIL ∧
    ((CreateRule listStore (some "") NET_FW_ACTION.NET_FW_ACTION_BLOCK
        NET_FW_RULE_DIRECTION.NET_FW_RULE_DIR_IN 6 none none none (some "22") []).1 = S_OK ∧
      listCount (some "") (CreateRule listStore (some "") NET_FW_ACTION.NET_FW_ACTION_BLOCK
        NET_FW_RULE_DIRECTION.NET_FW_RULE_DIR_IN 6 none none none (some "22") []).2.st = 1) := by
  decide

/-- C2 as amended: `CreateRule` with a `NULL` name, whatever the other
arguments and the platform, never calls `Add` (nor `Item`, nor `Remove`).  The
name is looked at only after the three acquisitions: when
`initializeFirewallPolicy`, `get_Rules` or `initializeFirewallRule` fails, the
result is the failing code that acquisition returned, which is the answer the
platform gave to the last acquisition call of the log; when the three succeed
the result is `1`, and the log then holds the successful calls that opened the
session (`CoInitializeEx`), created the policy object, obtained the collection
and constructed the rule object. -/
theorem CreateRule_null_name (P : Platform σ) (action : NET_FW_ACTION)
    (direction : NET_FW_RULE_DIRECTION) (protocol : LONG)
    (localAddresses localPorts remoteAddresses remotePorts : BSTR) (s : σ) :
    (∀ e ∈ (CreateRule P none action direction protocol localAddresses localPorts
        remoteAddresses remotePorts s).2.log,
      e.1.isAdd = false ∧ e.1.isItem = false ∧ e.1.isRemove = false) ∧
    ((CreateRule P none action direction protocol localAddresses localPorts
        remoteAddresses remotePorts s).1 = 1 ∨
      (FAILED (CreateRule P none action direction protocol localAddresses localPorts
        remoteAddresses remotePorts s).1 = true ∧
        ∃ A c T, (CreateRule P none action direction protocol localAddresses localPorts
            remoteAddresses remotePorts s).2.log =
            A ++ (c, (CreateRule P none action direction protocol localAddresses localPorts
              remoteAddresses remotePorts s).1) :: T ∧
          (∀ e ∈ A, e.1.isAcquire = true ∧ FAILED e.2 = false) ∧ c.isAcquire = true ∧
          (∀ e ∈ T, e.1.isTeardown = true))) ∧
    ((CreateRule P none action direction protocol localAddresses localPorts
        remoteAddresses remotePorts s).1 = 1 ↔
      ∀ e ∈ (CreateRule P none action direction protocol localAddresses localPorts
        remoteAddresses remotePorts s).2.log, e.1.isAcquire = true → FAILED e.2 = false) ∧
    ((CreateRule P none action direction protocol localAddresses localPorts
        remoteAddresses remotePorts s).1 = 1 →
      (∃ hr, (Call.CoInitializeEx, hr) ∈ (CreateRule P none action direction protocol
        localAddresses localPorts remoteAddresses remotePorts s).2.log ∧ FAILED hr = false) ∧
      (∃ hr, (Call.CoCreateInstance CLSID_NetFwPolicy2, hr) ∈ (CreateRule P none action
        direction protocol localAddresses localPorts remoteAddresses remotePorts s).2.log ∧
        FAILED hr = false) ∧
      (∃ hr, (Call.get_Rules, hr) ∈ (CreateRule P none action direction protocol localAddresses
        localPorts remoteAddresses remotePorts s).2.log ∧ FAILED hr = false) ∧
      (∃ hr, (Call.CoCreateInstance CLSID_NetFwRule, hr) ∈ (CreateRule P none action direction
        protocol localAddresses localPorts remoteAddresses remotePorts s).2.log ∧
        FAILED hr = false)) ∧
    (FAILED (initializeFirewallPolicy P { st := s, log := [] }).1 = true →
      (CreateRule P none action direction protocol localAddresses localPorts
        remoteAddresses remotePorts s).1 = (initializeFirewallPolicy P { st := s, log := [] }).1) ∧
    (FAILED (initializeFirewallPolicy P { st := s, log := [] }).1 = false →
      FAILED (get_Rules P (initializeFirewallPolicy P { st := s, log := [] }).2.2).1 = true →
      (CreateRule P none action direction protocol localAddresses localPorts
        remoteAddresses remotePorts s).1 =
        (P.respond Call.get_Rules (initializeFirewallPolicy P { st := s, log := [] }).2.2.st).1) ∧
    (FAILED (initializeFirewallPolicy P { st := s, log := [] }).1 = false →
      FAILED (get_Rules P (initializeFirewallPolicy P { st := s, log := [] }).2.2).1 = false →
      FAILED (initializeFirewallRule P
        (get_Rules P (initializeFirewallPolicy P { st := s, log := [] }).2.2).2.2).1 = true →
      (CreateRule P none action direction protocol localAddresses localPorts
        remoteAddresses remotePorts s).1 = (initializeFirewallRule P
          (get_Rules P (initializeFirewallPolicy P { st := s, log := [] }).2.2).2.2).1) ∧
    (FAILED (initializeFirewallPolicy P { st := s, log := [] }).1 = false →
      FAILED (get_Rules P (initializeFirewallPolicy P { st := s, log := [] }).2.2).1 = false →
      FAILED (initializeFirewallRule P
        (get_Rules P (initializeFirewallPolicy P { st := s, log := [] }).2.2).2.2).1 = false →
      (CreateRule P none action direction protocol localAddresses localPorts
        remoteAddresses remotePorts s).1 = 1) := by
  have hfun : (FAILED (initializeFirewallPolicy P { st := s, log := [] }).1 = true →
      (CreateRule P none action direction protocol localAddresses localPorts
        remoteAddresses remotePorts s).1 = (initializeFirewallPolicy P { st := s, log := [] }).1) ∧
    (FAILED (initializeFirewallPolicy P { st := s, log := [] }).1 = false →
      FAILED (get_Rules P (initializeFirewallPolicy P { st := s, log := [] }).2.2).1 = true →
      (CreateRule P none action direction protocol localAddresses localPorts
        remoteAddresses remotePorts s).1 =
        (P.respond Call.get_Rules (initializeFirewallPolicy P { st := s, log := [] }).2.2.st).1) ∧
    (FAILED (initializeFirewallPolicy P { st := s, log := [] }).1 = false →
      FAILED (get_Rules P (initializeFirewallPolicy P { st := s, log := [] }).2.2).1 = false →
      FAILED (initializeFirewallRule P
        (get_Rules P (initializeFirewallPolicy P { st := s, log := [] }).2.2).2.2).1 = true →
      (CreateRule P none action direction protocol localAddresses localPorts
        remoteAddresses remotePorts s).1 = (initializeFirewallRule P
          (get_Rules P (initializeFirewallPolicy P { st := s, log := [] }).2.2).2.2).1) ∧
    (FAILED (initializeFirewallPolicy P { st := s, log := [] }).1 = false →
      FAILED (get_Rules P (initializeFirewallPolicy P { st := s, log := [] }).2.2).1 = false →
      FAILED (initializeFirewallRule P
        (get_Rules P (initializeFirewallPolicy P { st := s, log := [] }).2.2).2.2).1 = false →
      (CreateRule P none action direction protocol localAddresses localPorts
        remoteAddresses remotePorts s).1 = 1) := by
    refine ⟨?_, ?_, ?_, ?_⟩
    · intro h1
      unfold CreateRule
      simp only [h1, if_true]
    · intro h1 h2
      unfold CreateRule
      simp only [h1, h2, Bool.false_eq_true, if_false, if_true]
      rfl
    · intro h1 h2 h3
      unfold CreateRule
      simp only [h1, h2, h3, Bool.false_eq_true, if_false, if_true]
    · intro h1 h2 h3
      unfold CreateRule
      simp only [h1, h2, h3, Bool.false_eq_true, if_false]
  have hshape := CreateRule_shape P none action direction protocol localAddresses localPorts
    remoteAddresses remotePorts s _ rfl
  generalize CreateRule P none action direction protocol localAddresses localPorts
    remoteAddresses remotePorts s = R at hshape hfun
  obtain ⟨f1, f2, f3, f4⟩ := hfun
  rcases hshape with ⟨hf, hlast, hall, e, he, hea, hef⟩ |
    ⟨_, h1, A, T, hlog, hA, hT, hg, hc, hci, hcp⟩ | ⟨nm, _, _, _, hnm, _⟩
  · have hne : R.1 ≠ 1 := by
      intro h
      rw [h] at hf
      exact absurd hf (by decide)
    refine ⟨?_, Or.inr ⟨hf, hlast⟩, ?_, fun h => absurd h hne, f1, f2, f3, f4⟩
    · intro x hx
      rcases hall x hx with h | h
      · exact ⟨(Call.of_isAcquire h).2.1, (Call.of_isAcquire h).1, (Call.of_isAcquire h).2.2.1⟩
      · exact ⟨(Call.of_isTeardown h).2.1, (Call.of_isTeardown h).1, (Call.of_isTeardown h).2.2.1⟩
    · constructor
      · intro h
        exact absurd h hne
      · intro h
        have := h e he hea
        rw [hef] at this
        exact absurd this (by decide)
  · refine ⟨?_, Or.inl h1, ?_, fun _ => ?_, f1, f2, f3, f4⟩
    · intro x hx
      rw [hlog] at hx
      rcases List.mem_append.mp hx with h | h
      · have := Call.of_isAcquire (hA x h).1
        exact ⟨this.2.1, this.1, this.2.2.1⟩
      · have := Call.of_isTeardown (hT x h)
        exact ⟨this.2.1, this.1, this.2.2.1⟩
    · refine ⟨fun _ => ?_, fun _ => h1⟩
      intro x hx hacq
      rw [hlog] at hx
      rcases List.mem_append.mp hx with h | h
      · exact (hA x h).2
      · have := (Call.of_isTeardown (hT x h)).2.2.2
        rw [hacq] at this
        exact absurd this (by decide)
    · obtain ⟨hr1, hm1⟩ := hg
      obtain ⟨hr2, hm2⟩ := hc
      obtain ⟨hr3, hm3⟩ := hci
      obtain ⟨hr4, hm4⟩ := hcp
      refine ⟨⟨hr3, ?_, (hA _ hm3).2⟩, ⟨hr4, ?_, (hA _ hm4).2⟩, ⟨hr1, ?_, (hA _ hm1).2⟩,
        ⟨hr2, ?_, (hA _ hm2).2⟩⟩
      · rw [hlog]
        exact List.mem_append_left _ hm3
      · rw [hlog]
        exact List.mem_append_left _ hm4
      · rw [hlog]
        exact List.mem_append_left _ hm1
      · rw [hlog]
        exact List.mem_append_left _ hm2
  · exact absurd hnm (by simp)

/-- C4: `portAllowed p` holds exactly for TCP (6) and UDP (17); in every run
of `CreateRule` with a name, the rule handed to `Add` carries the local
(remote) port filter exactly when that filter was supplied and `portAllowed`
holds for the protocol; such a rule is handed to `Add` whenever the three
acquisitions succeeded; and for a protocol that `portAllowed` rejects, the
whole run (result and calls) is the one obtained without port filters. -/
theorem CreateRule_port_filters (P : Platform σ) (nm : String) (action : NET_FW_ACTION)
    (direction : NET_FW_RULE_DIRECTION) (protocol : LONG)
    (localAddresses localPorts remoteAddresses remotePorts : BSTR) (s : σ) :
    (portAllowed protocol = true ↔ protocol = 6 ∨ protocol = 17) ∧
    (∀ r hr, (Call.Add r, hr) ∈ (CreateRule P (some nm) action direction protocol localAddresses
        localPorts remoteAddresses remotePorts s).2.log →
      (r.LocalPorts.isSome = true ↔ localPorts.isSome = true ∧ portAllowed protocol = true) ∧
      (r.RemotePorts.isSome = true ↔ remotePorts.isSome = true ∧ portAllowed protocol = true) ∧
      r.LocalPorts = (if portAllowed protocol = true then localPorts else none) ∧
      r.RemotePorts = (if portAllowed protocol = true then remotePorts else none)) ∧
    ((∀ e ∈ (CreateRule P (some nm) action direction protocol localAddresses
        localPorts remoteAddresses remotePorts s).2.log,
        e.1.isAcquire = true → FAILED e.2 = false) →
      ∃ r hr, (Call.Add r, hr) ∈ (CreateRule P (some nm) action direction protocol
        localAddresses localPorts remoteAddresses remotePorts s).2.log) ∧
    (portAllowed protocol = false →
      CreateRule P (some nm) action direction protocol localAddresses localPorts
        remoteAddresses remotePorts s =
      CreateRule P (some nm) action direction protocol localAddresses none
        remoteAddresses none s) := by
  refine ⟨?_, ?_, ?_, ?_⟩
  · simp [portAllowed, NET_FW_IP_PROTOCOL_TCP, NET_FW_IP_PROTOCOL_UDP]
  · intro r hr hmem
    have hshape := CreateRule_shape P (some nm) action direction protocol localAddresses
      localPorts remoteAddresses remotePorts s _ rfl
    generalize CreateRule P (some nm) action direction protocol localAddresses localPorts
      remoteAddresses remotePorts s = R at hshape hmem
    have hr_eq : r = populateRule nm action direction protocol localAddresses localPorts
        remoteAddresses remotePorts := by
      rcases hshape with ⟨_, _, hall, _⟩ | ⟨hnone, _⟩ | ⟨nm2, A, T, hr2, hnm, hlog, hA, hT, _⟩
      · rcases hall _ hmem with h | h
        · simp [Call.isAcquire] at h
        · simp [Call.isTeardown] at h
      · exact absurd hnone (by simp)
      · have hnm2 : nm = nm2 := Option.some.inj hnm
        subst hnm2
        rw [hlog] at hmem
        rcases List.mem_append.mp hmem with h | h
        · have := (hA _ h).1
          simp [Call.isAcquire] at this
        · rcases List.mem_cons.mp h with h2 | h2
          · exact Call.Add.inj (Prod.mk.inj h2).1
          · have := hT _ h2
            simp [Call.isTeardown] at this
    subst hr_eq
    rw [populateRule_LocalPorts, populateRule_RemotePorts]
    refine ⟨?_, ?_, rfl, rfl⟩
    · cases hp : portAllowed protocol <;> simp
    · cases hp : portAllowed protocol <;> simp
  · intro hok
    have hshape := CreateRule_shape P (some nm) action direction protocol localAddresses
      localPorts remoteAddresses remotePorts s _ rfl
    generalize CreateRule P (some nm) action direction protocol localAddresses localPorts
      remoteAddresses remotePorts s = R at hshape hok
    rcases hshape with ⟨_, _, _, e, he, hea, hef⟩ | ⟨hnone, _⟩ | ⟨nm2, A, T, hr2, _, hlog, _⟩
    · have := hok e he hea
      rw [hef] at this
      exact absurd this (by decide)
    · exact absurd hnone (by simp)
    · refine ⟨populateRule nm2 action direction protocol localAddresses localPorts
        remoteAddresses remotePorts, hr2, ?_⟩
      rw [hlog]
      simp
  · intro hp
    unfold CreateRule
    simp only []
    rw [populateRule_ports_dropped nm action direction protocol localAddresses localPorts
      remoteAddresses remotePorts hp]

/-- C5: on a reachable store whose lookups agree with the stored rules and
where a successful `Add` stores the rule under its name, whenever `CreateRule`
returns `S_OK`, `RuleExists` on the same name, run on the store it leaves,
returns `1`. -/
theorem CreateRule_then_RuleExists (P : Platform σ) (cnt : BSTR → σ → Nat)
    (hS : StoreModel P cnt)
    (hadd : ∀ r s, FAILED (P.respond (Call.Add r) s).1 = false →
      cnt r.Name (P.respond (Call.Add r) s).2 = cnt r.Name s + 1)
    (name : BSTR) (action : NET_FW_ACTION) (direction : NET_FW_RULE_DIRECTION)
    (protocol : LONG) (localAddresses localPorts remoteAddresses remotePorts : BSTR) (s : σ)
    (hok : (CreateRule P name action direction protocol localAddresses localPorts
      remoteAddresses remotePorts s).1 = S_OK) :
    (RuleExists P name (CreateRule P name action direction protocol localAddresses localPorts
      remoteAddresses remotePorts s).2.st).1 = 1 := by
  have hshape := CreateRule_shape P name action direction protocol localAddresses
    localPorts remoteAddresses remotePorts s _ rfl
  generalize CreateRule P name action direction protocol localAddresses localPorts
    remoteAddresses remotePorts s = R at hshape hok
  rcases hshape with ⟨hf, _⟩ | ⟨_, h1, _⟩ | ⟨nm, A, T, hr, hnm, _, _, _, hres, wpre, hhr, hsteps⟩
  · rw [hok] at hf
    exact absurd hf (by decide)
  · rw [hok] at h1
    exact absurd h1 (by decide)
  · subst hnm
    have hnf : FAILED hr = false := by
      by_contra hcon
      have hf : FAILED hr = true := by simpa using hcon
      rw [if_pos hf] at hres
      rw [hok] at hres
      rw [← hres] at hf
      exact absurd hf (by decide)
    have hcnt := hadd (populateRule nm action direction protocol localAddresses localPorts
      remoteAddresses remotePorts) wpre.st (hhr ▸ hnf)
    rw [populateRule_Name] at hcnt
    have hfinal : cnt (some nm) R.2.st = cnt (some nm) wpre.st + 1 := by
      rw [hS.cnt_of_steps (hsteps.mono (fun e he =>
        ⟨(Call.of_isTeardown he).2.1, (Call.of_isTeardown he).2.2.1⟩)) (some nm)]
      exact hcnt
    rw [hS.RuleExists_eq, if_neg (by omega)]

/-- Witness for C5, the scenario of the specification on `listStore`:
`CreateRule` of `block-ssh` (block, inbound, TCP, remote port 22) returns
`S_OK`, `RuleExists` then returns `1`, `DeleteRule` returns `S_OK`, and
`RuleExists` then returns `0`. -/
theorem CreateRule_then_RuleExists_witness :
    (CreateRule listStore (some "block-ssh") NET_FW_ACTION.NET_FW_ACTION_BLOCK
      NET_FW_RULE_DIRECTION.NET_FW_RULE_DIR_IN 6 none none none (some "22") []).1 = S_OK ∧
    (RuleExists listStore (some "block-ssh")
      (CreateRule listStore (some "block-ssh") NET_FW_ACTION.NET_FW_ACTION_BLOCK
        NET_FW_RULE_DIRECTION.NET_FW_RULE_DIR_IN 6 none none none (some "22") []).2.st).1 = 1 ∧
    (DeleteRule listStore 2 (some "block-ssh")
      (CreateRule listStore (some "block-ssh") NET_FW_ACTION.NET_FW_ACTION_BLOCK
        NET_FW_RULE_DIRECTION.NET_FW_RULE_DIR_IN 6 none none none (some "22") []).2.st).1
      = some S_OK ∧
    (RuleExists listStore (some "block-ssh")
      (DeleteRule listStore 2 (some "block-ssh")
        (CreateRule listStore (some "block-ssh") NET_FW_ACTION.NET_FW_ACTION_BLOCK
          NET_FW_RULE_DIRECTION.NET_FW_RULE_DIR_IN 6 none none none (some "22") []).2.st).2.st).1
      = 0 :=
  ⟨by decide,
    CreateRule_then_RuleExists listStore listCount listStore_model
      (fun r s _ => listStore_add_one r s) (some "block-ssh")
      NET_FW_ACTION.NET_FW_ACTION_BLOCK NET_FW_RULE_DIRECTION.NET_FW_RULE_DIR_IN 6 none none none
      (some "22") [] (by decide),
    by decide, by decide⟩

end Firewall
